import Mathlib

/-!
# qonconv: the QON animation container tool

A shallow embedding of `src/qonconv.cpp` (the `main` function: command line
processing, the unpack branch and the pack branch) and the properties of the
container it writes and reads.

Conventions of the embedding.

* A byte is a natural number; the container layer never inspects payload bytes.
* `size_t`, `int` and `unsigned` quantities that count bytes, frames or pixels
  are natural numbers: no file this program can create reaches `2^64` bytes.
  The one place where the machine width matters, the conversion of the `-d`
  argument by `std::stoi` into an `unsigned int`, is modelled with its range.
* `qon.h`, `qoi.h`, `qoi2.h` and the `stb` headers are not part of the sources:
  their functions are fields of `QonFormat`, `PixelCodec` and `ImageLibs`, and
  the three flag constants are fixed from the documented bit layout.
* Streams are explicit values: a byte list, a position and (for input) the
  fail state.  Output stream writes always succeed, and so does every
  allocation.
* `PackState.written` is a history of what the pack loop wrote; it is not a
  variable of the program.
-/

namespace Qon

/-- One `unsigned char`. -/
abbrev Byte := Nat

/-! ## Streams -/

/-- State of the binary `std::ofstream`: file content and put position. -/
structure ofstream where
  data : List Byte
  pos : Nat
deriving DecidableEq, Repr

/-- A freshly opened (truncated) output file. -/
def ofstream.opened : ofstream := { data := [], pos := 0 }

/-- The call `outfile.seekp(p)`. -/
def ofstream.seekp (f : ofstream) (p : Nat) : ofstream := { f with pos := p }

/-- The call `outfile.write(bs, bs.size())`: the bytes replace what is at the put
position; a gap between the end of the file and the put position reads as
zero bytes.  Writing no byte changes nothing. -/
def ofstream.write (f : ofstream) (bs : List Byte) : ofstream :=
  if bs.isEmpty then f
  else
    { data := f.data.take f.pos ++ List.replicate (f.pos - f.data.length) 0 ++ bs
              ++ f.data.drop (f.pos + bs.length),
      pos := f.pos + bs.length }

/-- State of the binary `std::ifstream`: file content, get position and whether
`failbit` is set. -/
structure ifstream where
  data : List Byte
  pos : Nat
  fail : Bool
deriving DecidableEq, Repr

/-- A freshly opened input file. -/
def ifstream.opened (content : List Byte) : ifstream :=
  { data := content, pos := 0, fail := false }

/-- The call `infile.seekg(p)`: does nothing on a stream whose `failbit` is set. -/
def ifstream.seekg (f : ifstream) (p : Nat) : ifstream :=
  if f.fail then f else { f with pos := p }

/-- The call `infile.read(buf, n)`: on a failed stream the buffer is left as it
was; otherwise the bytes available are stored at the front of the buffer and,
when fewer than `n` were available, `failbit` is set and the rest of the buffer
keeps its previous content. -/
def ifstream.read (f : ifstream) (n : Nat) (buf : List Byte) : List Byte × ifstream :=
  if f.fail then (buf, f)
  else
    let avail := (f.data.drop f.pos).take n
    if avail.length = n then (avail, { f with pos := f.pos + n })
    else (avail ++ (buf.take n).drop avail.length,
          { f with pos := f.pos + avail.length, fail := true })

/-! ## The container format (`qon.h`) -/

/-- The struct `qon_desc`. -/
structure qon_desc where
  width : Nat
  height : Nat
  channels : Nat
  colorspace : Nat
  frame_count : Nat
  flags : Nat
  frame_duration_in_microseconds : Nat
deriving DecidableEq, Repr

/-- Modelled from the spec: the constant `QON_FLAGS_USES_INTERFRAME_COMPRESSION`
of `qon.h` (not among the sources); the documented layout of the container flags
is "bit0 = any frame inter-frame-encoded". -/
def QON_FLAGS_USES_INTERFRAME_COMPRESSION : Nat := 1

/-- Modelled from the spec: the constant `QON_FLAGS_LOOP_ANIMATION` of `qon.h`
(not among the sources); the documented layout of the container flags is
"bit1 = loop on playback". -/
def QON_FLAGS_LOOP_ANIMATION : Nat := 2

/-- Modelled from the spec: the constant `QON_FRAME_FLAGS_INTERFRAME_COMPRESSION`
of `qon.h` (not among the sources); the documented layout of an index entry is
"flags: bitset, bit0 = inter-frame-encoded". -/
def QON_FRAME_FLAGS_INTERFRAME_COMPRESSION : Nat := 1

/-- The sizes and the six functions of `qon.h` that `main` uses.  An encoder
that fills a caller's buffer is a function returning the bytes it stored. -/
structure QonFormat where
  QON_BARE_HEADER_SIZE : Nat
  QON_INDEX_SIZE_PER_ENTRY : Nat
  QON_FRAME_SIZE_SIZE : Nat
  qon_encode_header : qon_desc → Option (List Byte)
  qon_decode_header : List Byte → Option qon_desc
  qon_encode_index_entry : List Byte → Nat → Nat → Nat → List Byte
  qon_decode_index_entry : List Byte → Nat → Nat × Nat
  qon_encode_frame_size : Nat → List Byte
  qon_decode_frame_size : List Byte → Nat

/-! ## The pixel codec (`qoi2.h`) and the image libraries -/

/-- The struct `qoi2_desc` (and `qoi_desc`, which has the same fields). -/
structure qoi2_desc where
  width : Nat
  height : Nat
  channels : Nat
  colorspace : Nat
deriving DecidableEq, Repr

/-- The functions of `qoi2.h` that the container code calls.
`qoi2_encode_data pixels channels desc reference capacity` is the byte block
stored in the output buffer (`none` when the call returns 0);
`qoi2_decode_data data desc reference channels` is the raster stored in the
pixel buffer (`none` when the call returns 0); `QOI2_SRGB` is the colorspace tag
of that name. -/
structure PixelCodec where
  QOI2_SRGB : Nat
  qoi2_max_encoded_data_size_without_header : qoi2_desc → Nat
  qoi2_encode_data : List Byte → Nat → qoi2_desc → Option (List Byte) → Nat → Option (List Byte)
  qoi2_decode_data : List Byte → qoi2_desc → Option (List Byte) → Nat → Option (List Byte)

/-- The still-image readers and writers: `stb_image`, `stb_image_write`,
`qoi.h`, and the whole-file forms of `qoi2.h`. -/
structure ImageLibs where
  /-- Width, height and channels of a PNG file (`stbi_info`). -/
  stbi_info : String → Option (Nat × Nat × Nat)
  /-- Pixels, width, height from `stbi_load path &w &h NULL channels`. -/
  stbi_load : String → Nat → Option (List Byte × Nat × Nat)
  /-- The call `qoi_read path &desc 0`. -/
  qoi_read : String → Option (List Byte × qoi2_desc)
  /-- Reading the whole file and `qoi2_decode`. -/
  qoi2_read : String → Option (List Byte × qoi2_desc)
  /-- The call `stbi_write_png path w h channels pixels 0`. -/
  stbi_write_png : String → Nat → Nat → Nat → List Byte → Bool
  /-- The call `qoi_write path pixels &desc`. -/
  qoi_write : String → List Byte → qoi2_desc → Bool
  /-- The call `qoi2_encode pixels channels &desc` followed by writing the file. -/
  qoi2_write : String → List Byte → Nat → qoi2_desc → Bool

/-- Everything `main` links against. -/
structure Env where
  fmt : QonFormat
  codec : PixelCodec
  libs : ImageLibs

/-! ## Strings -/

/-- The test `stricmp(a, b) == 0`. -/
def stricmpEq (a b : String) : Bool :=
  decide (a.data.map Char.toLower = b.data.map Char.toLower)

/-- The helper `STR_ENDS_WITH(S, E)`: the last `strlen(E)` characters of `S`
compared with `E` without regard to case. -/
def STR_ENDS_WITH (s e : String) : Bool :=
  decide ((s.data.drop (s.data.length - e.data.length)).map Char.toLower
            = e.data.map Char.toLower)

/-! ## Pack: loading a source image (lines 262-310) -/

/-- A loaded source image: the pixel array and `w`, `h`, `channels`,
`colorSpace`. -/
structure Image where
  pixels : List Byte
  w : Nat
  h : Nat
  channels : Nat
  colorSpace : Nat
deriving DecidableEq, Repr

/-- Outcome of the loading section of the pack loop. -/
inductive LoadResult where
  | headerError : LoadResult
  | loadError : LoadResult
  | loaded : Image → LoadResult
deriving DecidableEq, Repr

/-- Decode the input file to a pixel array (lines 262-310).  A `.qoi2` file that
cannot be opened makes the program stop inside `buffer.reserve` (line 297); the
embedding counts it among the files that fail to load. -/
def loadImage (env : Env) (filePath : String) : LoadResult :=
  let libs := env.libs
  if STR_ENDS_WITH filePath ".png" then
    match libs.stbi_info filePath with
    | none => .headerError
    | some (_, _, channels) =>
      let channels := if channels ≠ 3 then 4 else channels
      match libs.stbi_load filePath channels with
      | none => .loadError
      | some (pixels, w, h) =>
        .loaded { pixels := pixels, w := w, h := h, channels := channels, colorSpace := env.codec.QOI2_SRGB }
  else if STR_ENDS_WITH filePath ".qoi" then
    match libs.qoi_read filePath with
    | none => .loadError
    | some (pixels, desc) =>
      .loaded { pixels := pixels, w := desc.width, h := desc.height,
                channels := desc.channels, colorSpace := desc.colorspace }
  else if STR_ENDS_WITH filePath ".qoi2" then
    match libs.qoi2_read filePath with
    | none => .loadError
    | some (pixels, desc) =>
      .loaded { pixels := pixels, w := desc.width, h := desc.height,
                channels := desc.channels, colorSpace := desc.colorspace }
  else .loadError

/-! ## Pack (lines 237-399) -/

/-- The pack options set by the command line. -/
structure PackOptions where
  useInterFrameCompression : Bool
  loopAnimation : Bool
  delay : Nat
deriving DecidableEq, Repr

/-- The fatal errors of the pack branch, each with the path it prints. -/
inductive PackError where
  | readHeader : String → PackError
  | load : String → PackError
  | mismatch : String → PackError
  | encode : String → PackError
  | headerEncode : String → PackError
deriving DecidableEq, Repr

/-- What one completed iteration of the pack loop put into the container: the
arguments of its `qon_encode_index_entry` call and the payload it wrote after
the size field. -/
structure FrameWrite where
  offset : Nat
  flags : Nat
  payload : List Byte
deriving DecidableEq, Repr

/-- The variables of the pack branch that live across loop iterations.
`written` is a history of the completed iterations; the program never
reads it. -/
structure PackState where
  qonHeader : qon_desc
  frameIndexBuffer : List Byte
  outfile : ofstream
  addedInterFrameCompressedData : Bool
  lastFramePixels : Option (List Byte)
  nextFrameNo : Nat
  currentFileOffsetAfterHeader : Nat
  qoi2Header : qoi2_desc
  maxCompressedFrameSize : Nat
  written : List FrameWrite
deriving DecidableEq, Repr

/-- The geometry test of line 325. -/
def geometryMismatch (img : Image) (h : qon_desc) : Bool :=
  decide (img.w ≠ h.width) || decide (img.h ≠ h.height)
    || decide (img.channels ≠ h.channels) || decide (img.colorSpace ≠ h.colorspace)

/-- Lines 312-328: latch the properties of the first frame, validate the others. -/
def latchOrValidate (codec : PixelCodec) (s : PackState) (img : Image) : Option PackState :=
  if s.nextFrameNo = 0 then
    let qh := { s.qonHeader with width := img.w, height := img.h, channels := img.channels,
                                 colorspace := img.colorSpace }
    let q2 : qoi2_desc := { width := qh.width, height := qh.height, channels := qh.channels,
                            colorspace := qh.colorspace }
    some { s with qonHeader := qh, qoi2Header := q2,
                  maxCompressedFrameSize := codec.qoi2_max_encoded_data_size_without_header q2 }
  else if geometryMismatch img s.qonHeader then none
  else some s

/-- Lines 350-378: write the smallest version of the frame with its leading
size, write the index entry, advance the loop variables. -/
def writeFrame (fmt : QonFormat) (s : PackState) (pixels : List Byte)
    (keyFrame : List Byte) (interFrame : Option (List Byte)) : PackState :=
  let useInter : Bool :=
    match interFrame with
    | some ib => decide (ib.length < keyFrame.length)
    | none => false
  let payload : List Byte :=
    match interFrame with
    | some ib => if ib.length < keyFrame.length then ib else keyFrame
    | none => keyFrame
  let out := (s.outfile.write (fmt.qon_encode_frame_size payload.length)).write payload
  let bytesWritten := fmt.QON_FRAME_SIZE_SIZE + payload.length
  let frameFlags := if useInter then QON_FRAME_FLAGS_INTERFRAME_COMPRESSION else 0
  { s with
    outfile := out
    addedInterFrameCompressedData := s.addedInterFrameCompressedData || useInter
    frameIndexBuffer :=
      fmt.qon_encode_index_entry s.frameIndexBuffer s.nextFrameNo
        s.currentFileOffsetAfterHeader frameFlags
    lastFramePixels := some pixels
    currentFileOffsetAfterHeader := s.currentFileOffsetAfterHeader + bytesWritten
    nextFrameNo := s.nextFrameNo + 1
    written := s.written ++ [{ offset := s.currentFileOffsetAfterHeader, flags := frameFlags,
                               payload := payload }] }

/-- One iteration of the pack loop (lines 261-379). -/
def packFrame (env : Env) (opt : PackOptions) (s : PackState) (filePath : String) :
    Except PackError PackState :=
  match loadImage env filePath with
  | .headerError => .error (.readHeader filePath)
  | .loadError => .error (.load filePath)
  | .loaded img =>
    match latchOrValidate env.codec s img with
    | none => .error (.mismatch filePath)
    | some s1 =>
      match env.codec.qoi2_encode_data img.pixels img.channels s1.qoi2Header none
              s1.maxCompressedFrameSize with
      | none => .error (.encode filePath)
      | some keyFrame =>
        if opt.useInterFrameCompression && decide (s1.nextFrameNo > 0) then
          match env.codec.qoi2_encode_data img.pixels img.channels s1.qoi2Header
                  s1.lastFramePixels s1.maxCompressedFrameSize with
          | none => .error (.encode filePath)
          | some interFrame => .ok (writeFrame env.fmt s1 img.pixels keyFrame (some interFrame))
        else .ok (writeFrame env.fmt s1 img.pixels keyFrame none)

/-- The pack loop: stops at the first fatal error, with the state reached. -/
def packLoop (env : Env) (opt : PackOptions) : PackState → List String → PackState × Option PackError
  | s, [] => (s, none)
  | s, filePath :: rest =>
    match packFrame env opt s filePath with
    | .error e => (s, some e)
    | .ok s1 => packLoop env opt s1 rest

/-- Lines 237-260: the header draft, the empty index, the output file positioned
at the start of the frame data.  `junk` and `junk2` stand for the content of
the fields the program leaves uninitialised until the first frame is loaded. -/
def packInit (fmt : QonFormat) (opt : PackOptions) (junk : qon_desc) (junk2 : qoi2_desc)
    (frameCount : Nat) : PackState :=
  { qonHeader := { junk with frame_count := frameCount,
                             flags := if opt.loopAnimation then QON_FLAGS_LOOP_ANIMATION else 0,
                             frame_duration_in_microseconds := opt.delay }
    frameIndexBuffer := List.replicate (frameCount * fmt.QON_INDEX_SIZE_PER_ENTRY) 0
    outfile := ofstream.opened.seekp
      (fmt.QON_BARE_HEADER_SIZE + frameCount * fmt.QON_INDEX_SIZE_PER_ENTRY)
    addedInterFrameCompressedData := false
    lastFramePixels := none
    nextFrameNo := 0
    currentFileOffsetAfterHeader := 0
    qoi2Header := junk2
    maxCompressedFrameSize := 0
    written := [] }

/-- Result of the pack branch: exit status, the error printed, the final
state (its `outfile.data` is the output file). -/
structure PackResult where
  exitStatus : Nat
  error : Option PackError
  state : PackState
deriving DecidableEq, Repr

/-- Lines 386-389: the header flags after the loop. -/
def finalHeader (opt : PackOptions) (s : PackState) : qon_desc :=
  if s.addedInterFrameCompressedData then
    { s.qonHeader with
      flags := s.qonHeader.flags |||
        (if opt.useInterFrameCompression then QON_FLAGS_USES_INTERFRAME_COMPRESSION else 0) }
  else s.qonHeader

/-- The pack branch from line 237 on, for the list of paths read from the list
file and an output file that could be opened. -/
def pack (env : Env) (opt : PackOptions) (junk : qon_desc) (junk2 : qoi2_desc)
    (outfilePath : String) (infilePaths : List String) : PackResult :=
  match packLoop env opt (packInit env.fmt opt junk junk2 infilePaths.length) infilePaths with
  | (s, some e) => { exitStatus := 1, error := some e, state := s }
  | (s, none) =>
    let out1 := (s.outfile.seekp env.fmt.QON_BARE_HEADER_SIZE).write s.frameIndexBuffer
    let hdr := finalHeader opt s
    match env.fmt.qon_encode_header hdr with
    | none =>
      { exitStatus := 1, error := some (.headerEncode outfilePath),
        state := { s with outfile := out1, qonHeader := hdr } }
    | some bs =>
      { exitStatus := 0, error := none,
        state := { s with outfile := (out1.seekp 0).write bs, qonHeader := hdr } }

/-! ## Unpack (lines 120-222) -/

/-- The errors the unpack branch prints. -/
inductive UnpackError where
  | headerDecode : String → UnpackError
  | decodeFrame : Nat → String → UnpackError
  | writeFrame : String → UnpackError
deriving DecidableEq, Repr

/-- The variables of the unpack branch that live across loop iterations, and
the files written so far (path and raster handed to the output encoder). -/
structure UnpackState where
  infile : ifstream
  lastFramePixels : Option (List Byte)
  emitted : List (String × List Byte)
deriving DecidableEq, Repr

/-- Line 170: the reference raster handed to the pixel decoder. -/
def previousFrameReferenceData (headerFlags frameFlags frameIndex : Nat)
    (lastFramePixels : Option (List Byte)) : Option (List Byte) :=
  if decide (headerFlags &&& QON_FLAGS_USES_INTERFRAME_COMPRESSION ≠ 0)
      && decide (frameFlags &&& QON_FRAME_FLAGS_INTERFRAME_COMPRESSION ≠ 0)
      && decide (frameIndex > 0)
  then lastFramePixels else none

/-- Lines 176-179: the frame number padded with zeros to eight digits. -/
def frameFileName (frameIndex : Nat) : String :=
  let frameIndexAsString := toString frameIndex
  String.mk (List.replicate (8 - min 8 frameIndexAsString.length) '0') ++ frameIndexAsString

/-- Lines 183-211: write the frame to the target output file; the result is
the variable `encoded`. -/
def emitFrame (libs : ImageLibs) (unpackFormat filePath : String) (h : qon_desc)
    (pixels : List Byte) : Bool :=
  let desc : qoi2_desc :=
    { width := h.width, height := h.height, channels := h.channels, colorspace := h.colorspace }
  if STR_ENDS_WITH unpackFormat ".png" then
    libs.stbi_write_png filePath h.width h.height h.channels pixels
  else if STR_ENDS_WITH unpackFormat ".qoi" then libs.qoi_write filePath pixels desc
  else if STR_ENDS_WITH unpackFormat ".qoi2" then libs.qoi2_write filePath pixels h.channels desc
  else false

/-- One iteration of the unpack loop (lines 152-220).  `stackJunk` is the
content of the uninitialised array `frameSizeBuffer` when the iteration
starts. -/
def unpackFrame (env : Env) (unpackFormat infilePath outfilePath : String)
    (qonHeader : qon_desc) (qoi2Header : qoi2_desc) (frameIndexBuffer : List Byte)
    (frameDataFileOffset : Nat) (stackJunk : List Byte) (s : UnpackState) (frameIndex : Nat) :
    Except UnpackError UnpackState :=
  let entry := env.fmt.qon_decode_index_entry frameIndexBuffer frameIndex
  let frameOffsetAfterIndex := entry.1
  let frameFlags := entry.2
  let r1 := (s.infile.seekg (frameDataFileOffset + frameOffsetAfterIndex)).read
              env.fmt.QON_FRAME_SIZE_SIZE stackJunk
  let frameSizeBuffer := r1.1
  let frameSize := env.fmt.qon_decode_frame_size frameSizeBuffer
  let r2 := r1.2.read frameSize (List.replicate frameSize 0)
  let frameBuffer := r2.1
  let reference :=
    previousFrameReferenceData qonHeader.flags frameFlags frameIndex s.lastFramePixels
  match env.codec.qoi2_decode_data frameBuffer qoi2Header reference qoi2Header.channels with
  | none => .error (.decodeFrame frameIndex infilePath)
  | some pixels =>
    let filePath := outfilePath ++ frameFileName frameIndex ++ unpackFormat
    if emitFrame env.libs unpackFormat filePath qonHeader pixels then
      .ok { infile := r2.2, lastFramePixels := some pixels,
            emitted := s.emitted ++ [(filePath, pixels)] }
    else .error (.writeFrame filePath)

/-- The unpack loop over `frameIndex, frameIndex + 1, ...` for `remaining`
frames: stops at the first error, with the state reached. -/
def unpackLoop (env : Env) (unpackFormat infilePath outfilePath : String)
    (qonHeader : qon_desc) (qoi2Header : qoi2_desc) (frameIndexBuffer : List Byte)
    (frameDataFileOffset : Nat) (stackJunk : Nat → List Byte) :
    Nat → Nat → UnpackState → UnpackState × Option UnpackError
  | 0, _, s => (s, none)
  | remaining + 1, frameIndex, s =>
    match unpackFrame env unpackFormat infilePath outfilePath qonHeader qoi2Header
            frameIndexBuffer frameDataFileOffset (stackJunk frameIndex) s frameIndex with
    | .error e => (s, some e)
    | .ok s1 =>
      unpackLoop env unpackFormat infilePath outfilePath qonHeader qoi2Header
        frameIndexBuffer frameDataFileOffset stackJunk remaining (frameIndex + 1) s1

/-- Result of the unpack branch: exit status, the error printed, the files
written. -/
structure UnpackResult where
  exitStatus : Nat
  error : Option UnpackError
  emitted : List (String × List Byte)
deriving DecidableEq, Repr

/-- The exit status after each error of the unpack branch (lines 134, 173, 214). -/
def UnpackError.exitStatus : UnpackError → Nat
  | .headerDecode _ => 1
  | .decodeFrame _ _ => 0
  | .writeFrame _ => 1

/-- The unpack branch from line 128 on, for an input file that could be opened
and holds `content`. -/
def unpack (env : Env) (unpackFormat infilePath outfilePath : String)
    (stackJunk : Nat → List Byte) (content : List Byte) : UnpackResult :=
  let r0 := (ifstream.opened content).read env.fmt.QON_BARE_HEADER_SIZE
              (List.replicate env.fmt.QON_BARE_HEADER_SIZE 0)
  let encodedHeaderBuffer := r0.1
  match env.fmt.qon_decode_header encodedHeaderBuffer with
  | none => { exitStatus := 1, error := some (.headerDecode outfilePath), emitted := [] }
  | some qonHeader =>
    let qoi2Header : qoi2_desc :=
      { width := qonHeader.width, height := qonHeader.height, channels := qonHeader.channels,
        colorspace := qonHeader.colorspace }
    let indexSize := env.fmt.QON_INDEX_SIZE_PER_ENTRY * qonHeader.frame_count
    let r1 := r0.2.read indexSize (List.replicate indexSize 0)
    let frameIndexBuffer := r1.1
    let frameDataFileOffset := encodedHeaderBuffer.length + frameIndexBuffer.length
    match unpackLoop env unpackFormat infilePath outfilePath qonHeader qoi2Header
            frameIndexBuffer frameDataFileOffset stackJunk qonHeader.frame_count 0
            { infile := r1.2, lastFramePixels := none, emitted := [] } with
    | (s, some e) => { exitStatus := e.exitStatus, error := some e, emitted := s.emitted }
    | (s, none) => { exitStatus := 0, error := none, emitted := s.emitted }

/-! ## Command line processing (lines 49-118) -/

/-- The operation settings after command line processing. -/
structure Settings where
  isUnpack : Bool
  useInterFrameCompression : Bool
  loopAnimation : Bool
  delay : Nat
  unpackFormat : String
  infilePath : String
  outfilePath : String
deriving DecidableEq, Repr

/-- How command line processing ends: the usage text and exit status 1
(`commandLineError`), an abnormal termination (an exception leaving
`std::stoi`, or a string built from the null pointer that ends `argv`), or the
settings the operation runs with. -/
inductive ArgsOutcome where
  | usage : ArgsOutcome
  | aborted : ArgsOutcome
  | run : Settings → ArgsOutcome
deriving DecidableEq, Repr

/-- The character `s[k]` of a C string: the terminating zero at `k = strlen(s)`. -/
def cstrAt (s : String) (k : Nat) : Char := s.data.getD k (Char.ofNat 0)

/-- The C `isspace` test of the default locale. -/
def isSpaceC (c : Char) : Bool := decide (c.toNat = 32) || (decide (9 ≤ c.toNat) && decide (c.toNat ≤ 13))

/-- The C `isdigit` test. -/
def isDigitC (c : Char) : Bool := decide (48 ≤ c.toNat) && decide (c.toNat ≤ 57)

/-- Value of a string of decimal digits. -/
def decimalValue (ds : List Char) : Nat :=
  ds.foldl (fun acc c => 10 * acc + (c.toNat - 48)) 0

/-- The call `std::stoi(s)`: leading white space, an optional sign, then the
longest run of decimal digits; `none` stands for the exception thrown when
there is no digit (`std::invalid_argument`) or the value is not an `int`
(`std::out_of_range`). -/
def stoi (s : String) : Option Int :=
  let cs := s.data.dropWhile isSpaceC
  let signed : Bool × List Char :=
    match cs with
    | c :: r => if c = '-' then (true, r) else if c = '+' then (false, r) else (false, c :: r)
    | [] => (false, [])
  let digits := signed.2.takeWhile isDigitC
  if digits.isEmpty then none
  else
    let v : Int := if signed.1 then - (decimalValue digits : Int) else (decimalValue digits : Int)
    if v < -2147483648 ∨ 2147483647 < v then none else some v

/-- Conversion of an `int` to `unsigned int`. -/
def toUnsigned (v : Int) : Nat := (v % 4294967296).toNat

/-- How the option loop of the pack operation ends. -/
inductive OptionsOutcome where
  | aborted : OptionsOutcome
  | done : Bool → Nat → Settings → OptionsOutcome
deriving DecidableEq, Repr

/-- The loop `while (++nextArgToCheck < (argc - 2))` of lines 72-90; `fuel`
bounds the number of iterations.  `done e n c` gives `commandLineError`,
`nextArgToCheck` and the settings when the loop is left. -/
def optionLoop (argv : List String) : Nat → Nat → Settings → OptionsOutcome
  | 0, _, _ => .aborted
  | fuel + 1, nextArgToCheck, c =>
    let next := nextArgToCheck + 1
    if ((next : Nat) : Int) < (argv.length : Int) - 2 then
      match argv.get? next with
      | none => .aborted
      | some arg =>
        if cstrAt arg 0 ≠ '-' ∧ cstrAt arg 0 ≠ '/' then .done true next c
        else if cstrAt arg 1 = 'i' then
          optionLoop argv fuel next { c with useInterFrameCompression := true }
        else if cstrAt arg 1 = 'd' then
          match argv.get? (next + 1) with
          | none => .aborted
          | some value =>
            match stoi value with
            | none => .aborted
            | some v => optionLoop argv fuel (next + 1) { c with delay := toUnsigned v }
        else if cstrAt arg 1 = 'l' then
          optionLoop argv fuel next { c with loopAnimation := true }
        else .done true next c
    else .done false next c

/-- The operation defaults of lines 50-56. -/
def Settings.defaults : Settings :=
  { isUnpack := false, useInterFrameCompression := false, loopAnimation := false, delay := 0,
    unpackFormat := "", infilePath := "", outfilePath := "" }

/-- Command line processing (lines 49-118) for `argv[0 .. argc-1]`. -/
def processArgs (argv : List String) : ArgsOutcome :=
  let argc : Int := argv.length
  let c := Settings.defaults
  if (1 : Int) < argc - 3 ∧ stricmpEq (argv.getD 1 "") "unpack" then
    match argv.get? 2, argv.get? 3, argv.get? 4 with
    | some a2, some a3, some a4 =>
      let c := { c with isUnpack := true, unpackFormat := "." ++ a2, infilePath := a3,
                        outfilePath := a4 }
      if !stricmpEq c.unpackFormat ".png" && !stricmpEq c.unpackFormat ".qoi"
          && !stricmpEq c.unpackFormat ".qoi2" then .usage
      else .run c
    | _, _, _ => .aborted
  else if (1 : Int) < argc - 3 ∧ stricmpEq (argv.getD 1 "") "pack" then
    match optionLoop argv argv.length 1 { c with isUnpack := false } with
    | .aborted => .aborted
    | .done commandLineError next c =>
      match argv.get? next, argv.get? (next + 1) with
      | some a, some b =>
        if commandLineError then .usage else .run { c with infilePath := a, outfilePath := b }
      | _, _ => .aborted
  else .usage

/-! ## A concrete instance

A small container format, pixel codec and image library on which the
definitions above can be evaluated. -/

/-- A container format with a seven byte header (one byte a field), index
entries of three bytes (offset high, offset low, flags) and a two byte frame
size. -/
def demoFormat : QonFormat :=
  { QON_BARE_HEADER_SIZE := 7
    QON_INDEX_SIZE_PER_ENTRY := 3
    QON_FRAME_SIZE_SIZE := 2
    qon_encode_header := fun h =>
      if h.width = 0 ∨ h.height = 0 ∨ h.channels = 0 ∨ 256 ≤ h.width ∨ 256 ≤ h.height
          ∨ 256 ≤ h.channels ∨ 256 ≤ h.colorspace ∨ 256 ≤ h.frame_count ∨ 256 ≤ h.flags
          ∨ 256 ≤ h.frame_duration_in_microseconds then none
      else some [h.width, h.height, h.channels, h.colorspace, h.frame_count, h.flags,
                 h.frame_duration_in_microseconds]
    qon_decode_header := fun bs =>
      match bs with
      | [w, h, c, cs, n, fl, d] =>
        if w = 0 ∨ h = 0 ∨ c = 0 then none
        else some { width := w, height := h, channels := c, colorspace := cs, frame_count := n,
                    flags := fl, frame_duration_in_microseconds := d }
      | _ => none
    qon_encode_index_entry := fun buf i off fl =>
      ((buf.set (3 * i) (off / 256 % 256)).set (3 * i + 1) (off % 256)).set (3 * i + 2) (fl % 256)
    qon_decode_index_entry := fun buf i =>
      (buf.getD (3 * i) 0 * 256 + buf.getD (3 * i + 1) 0, buf.getD (3 * i + 2) 0)
    qon_encode_frame_size := fun n => [n / 256 % 256, n % 256]
    qon_decode_frame_size := fun bs => bs.getD 0 0 * 256 + bs.getD 1 0 }

/-- A lossless pixel codec: one byte `1` for a raster equal to its reference,
otherwise a byte `0` followed by the raster. -/
def demoCodec : PixelCodec :=
  { QOI2_SRGB := 0
    qoi2_max_encoded_data_size_without_header := fun d => d.width * d.height * d.channels + 1
    qoi2_encode_data := fun pixels _ _ reference capacity =>
      let out := if reference = some pixels then [1] else 0 :: pixels
      if out.length ≤ capacity then some out else none
    qoi2_decode_data := fun data _ reference _ =>
      match data with
      | [] => none
      | tag :: rest =>
        if tag = 0 then some rest
        else if tag = 1 ∧ rest = [] then reference
        else none }

/-- The images behind the file names of the concrete instance. -/
def demoFiles (path : String) : Option (List Byte × qoi2_desc) :=
  if path = "red.qoi" then some ([255, 0, 0], { width := 1, height := 1, channels := 3, colorspace := 0 })
  else if path = "red2.qoi" then some ([255, 0, 0], { width := 1, height := 1, channels := 3, colorspace := 0 })
  else if path = "blue.qoi" then some ([0, 0, 255], { width := 1, height := 1, channels := 3, colorspace := 0 })
  else if path = "wide.qoi" then
    some ([1, 2, 3, 4, 5, 6], { width := 2, height := 1, channels := 3, colorspace := 0 })
  else none

/-- An image library that reads the four files of `demoFiles` and whose writers
always succeed. -/
def demoLibs : ImageLibs :=
  { stbi_info := fun _ => none
    stbi_load := fun _ _ => none
    qoi_read := demoFiles
    qoi2_read := fun _ => none
    stbi_write_png := fun _ _ _ _ _ => true
    qoi_write := fun _ _ _ => true
    qoi2_write := fun _ _ _ _ => true }

/-- The concrete instance. -/
def demoEnv : Env := { fmt := demoFormat, codec := demoCodec, libs := demoLibs }

/-- Content of the uninitialised header fields in the concrete instance. -/
def demoJunk : qon_desc :=
  { width := 9, height := 9, channels := 9, colorspace := 9, frame_count := 9, flags := 9,
    frame_duration_in_microseconds := 9 }

/-- Content of the uninitialised codec descriptor in the concrete instance. -/
def demoJunk2 : qoi2_desc := { width := 9, height := 9, channels := 9, colorspace := 9 }

/-- Options of the concrete runs: inter-frame compression and looping on, a
frame duration of five microseconds. -/
def demoOptions : PackOptions :=
  { useInterFrameCompression := true, loopAnimation := true, delay := 5 }

/-- The list file of the concrete runs: two identical frames, then a different
one. -/
def demoPaths : List String := ["red.qoi", "red2.qoi", "blue.qoi"]

/-- The pack state of the concrete run after its first `k` frames. -/
def demoAfter (k : Nat) : PackState :=
  (packLoop demoEnv demoOptions (packInit demoFormat demoOptions demoJunk demoJunk2 3)
    (demoPaths.take k)).1

/-- The concrete run of pack. -/
def demoPack : PackResult := pack demoEnv demoOptions demoJunk demoJunk2 "out.qon" demoPaths

/-- The concrete run of pack without inter-frame compression. -/
def demoPackKey : PackResult :=
  pack demoEnv { demoOptions with useInterFrameCompression := false } demoJunk demoJunk2
    "out.qon" demoPaths

/-- A truncated container for the concrete format: a header announcing five
frames followed by three bytes, a single index entry instead of five. -/
def demoTruncated : List Byte := [1, 1, 3, 0, 5, 0, 0, 0, 0, 0]

/-- A container cut inside a frame record: the file the concrete run of pack
writes (31 bytes) without its last two bytes, so the record of frame 2 declares
four payload bytes and holds two. -/
def demoCutRecord : List Byte :=
  [1, 1, 3, 0, 3, 3, 5, 0, 0, 0, 0, 6, 1, 0, 9, 0, 0, 4, 0, 255, 0, 0, 0, 1, 1, 0, 4, 0, 0]

/-- Content of the uninitialised size buffer in the concrete runs of unpack. -/
def demoStackJunk : Nat → List Byte := fun _ => [0, 3]

/-- The images the paths of the concrete run load as. -/
def demoImages : List Image :=
  [{ pixels := [255, 0, 0], w := 1, h := 1, channels := 3, colorSpace := 0 },
   { pixels := [255, 0, 0], w := 1, h := 1, channels := 3, colorSpace := 0 },
   { pixels := [0, 0, 255], w := 1, h := 1, channels := 3, colorSpace := 0 }]

/-- A pixel codec with a pixel budget, in the manner of the pixel limit of
still-image encoders: `demoCodec`, except that it refuses to encode for a
descriptor of two or more pixels. -/
def budgetCodec : PixelCodec :=
  { demoCodec with
    qoi2_encode_data := fun pixels channels desc reference capacity =>
      if 2 ≤ desc.width * desc.height then none
      else demoCodec.qoi2_encode_data pixels channels desc reference capacity }

/-- The concrete instance with the codec `budgetCodec`. -/
def budgetEnv : Env := { demoEnv with codec := budgetCodec }

/-! ## Vocabulary of the properties -/

/-- In the run of the unpack loop with the stack content `stackJunk`, every
iteration starts with a stream that has not failed and finds the whole size
field of its frame inside the file. -/
def sizeFieldsRead (env : Env) (unpackFormat infilePath outfilePath : String)
    (qonHeader : qon_desc) (qoi2Header : qoi2_desc) (frameIndexBuffer : List Byte)
    (frameDataFileOffset : Nat) (stackJunk : Nat → List Byte) : Nat → Nat → UnpackState → Bool
  | 0, _, _ => true
  | remaining + 1, frameIndex, s =>
    !s.infile.fail
      && decide (frameDataFileOffset
                  + (env.fmt.qon_decode_index_entry frameIndexBuffer frameIndex).1
                  + env.fmt.QON_FRAME_SIZE_SIZE ≤ s.infile.data.length)
      && (match unpackFrame env unpackFormat infilePath outfilePath qonHeader qoi2Header
                frameIndexBuffer frameDataFileOffset (stackJunk frameIndex) s frameIndex with
          | .error _ => true
          | .ok s1 =>
            sizeFieldsRead env unpackFormat infilePath outfilePath qonHeader qoi2Header
              frameIndexBuffer frameDataFileOffset stackJunk remaining (frameIndex + 1) s1)

/-- The same for a whole run of unpack on the file `content`: true also when
the header does not decode, where no frame is read. -/
def unpackSizeFieldsRead (env : Env) (unpackFormat infilePath outfilePath : String)
    (stackJunk : Nat → List Byte) (content : List Byte) : Bool :=
  let r0 := (ifstream.opened content).read env.fmt.QON_BARE_HEADER_SIZE
              (List.replicate env.fmt.QON_BARE_HEADER_SIZE 0)
  match env.fmt.qon_decode_header r0.1 with
  | none => true
  | some qonHeader =>
    let qoi2Header : qoi2_desc :=
      { width := qonHeader.width, height := qonHeader.height, channels := qonHeader.channels,
        colorspace := qonHeader.colorspace }
    let indexSize := env.fmt.QON_INDEX_SIZE_PER_ENTRY * qonHeader.frame_count
    let r1 := r0.2.read indexSize (List.replicate indexSize 0)
    sizeFieldsRead env unpackFormat infilePath outfilePath qonHeader qoi2Header r1.1
      (r0.1.length + r1.1.length) stackJunk qonHeader.frame_count 0
      { infile := r1.2, lastFramePixels := none, emitted := [] }

/-- One option of the pack operation as the usage text lists them: `-i`, `-l`,
or `-d` followed by a string of decimal digits. -/
inductive PackOpt where
  | i : PackOpt
  | l : PackOpt
  | d : List Char → PackOpt
deriving DecidableEq, Repr

/-- The command line arguments of one option. -/
def PackOpt.args : PackOpt → List String
  | .i => ["-i"]
  | .l => ["-l"]
  | .d digits => ["-d", String.mk digits]

/-- The command line arguments of a sequence of options. -/
def optionArgs : List PackOpt → List String
  | [] => []
  | o :: rest => o.args ++ optionArgs rest

/-- The value of the last `-d` of a sequence of options, `current` when there is
none. -/
def lastDelay : List PackOpt → Nat → Nat
  | [], current => current
  | .d digits :: rest, _ => lastDelay rest (decimalValue digits)
  | .i :: rest, current => lastDelay rest current
  | .l :: rest, current => lastDelay rest current

/-- The `-d` value of an option is a non-empty string of decimal digits that
denotes an `int`. -/
def PackOpt.valid : PackOpt → Prop
  | .d digits => digits ≠ [] ∧ (∀ c ∈ digits, isDigitC c = true) ∧ decimalValue digits ≤ 2147483647
  | _ => True

/-- The settings after a sequence of options has been processed. -/
def applyOpts : List PackOpt → Settings → Settings
  | [], c => c
  | .i :: rest, c => applyOpts rest { c with useInterFrameCompression := true }
  | .l :: rest, c => applyOpts rest { c with loopAnimation := true }
  | .d digits :: rest, c => applyOpts rest { c with delay := decimalValue digits }

/-- Bytes one frame occupies in the frame-data region: size field and payload. -/
def recordSize (fmt : QonFormat) (w : FrameWrite) : Nat :=
  fmt.QON_FRAME_SIZE_SIZE + w.payload.length

/-- The size-prefixed record of one frame. -/
def recordBytes (fmt : QonFormat) (w : FrameWrite) : List Byte :=
  fmt.qon_encode_frame_size w.payload.length ++ w.payload

/-- Total size of the records of a list of frames. -/
def dataSize (fmt : QonFormat) : List FrameWrite → Nat
  | [] => 0
  | w :: ws => recordSize fmt w + dataSize fmt ws

/-- The concatenated records of a list of frames. -/
def dataBytes (fmt : QonFormat) : List FrameWrite → List Byte
  | [] => []
  | w :: ws => recordBytes fmt w ++ dataBytes fmt ws

/-- The index buffer after the entries of the frames `ws`, numbered from `i`,
have been stored into `buf` one after the other. -/
def indexImage (fmt : QonFormat) : List Byte → Nat → List FrameWrite → List Byte
  | buf, _, [] => buf
  | buf, i, w :: ws => indexImage fmt (fmt.qon_encode_index_entry buf i w.offset w.flags) (i + 1) ws

/-- The encoders of the format fill buffers of the declared sizes: the frame
size field has `QON_FRAME_SIZE_SIZE > 0` bytes, storing an index entry keeps the
length of the index buffer, an encoded header has `QON_BARE_HEADER_SIZE` bytes. -/
def SizesOK (fmt : QonFormat) : Prop :=
  0 < fmt.QON_FRAME_SIZE_SIZE
    ∧ (∀ n, (fmt.qon_encode_frame_size n).length = fmt.QON_FRAME_SIZE_SIZE)
    ∧ (∀ buf i off fl, (fmt.qon_encode_index_entry buf i off fl).length = buf.length)
    ∧ (∀ h bs, fmt.qon_encode_header h = some bs → bs.length = fmt.QON_BARE_HEADER_SIZE)

/-- Total size of a container as the sum of its parts: header, index, and for
each frame the size field and the payload. -/
def containerSize (fmt : QonFormat) (r : PackResult) : Nat :=
  fmt.QON_BARE_HEADER_SIZE + r.state.qonHeader.frame_count * fmt.QON_INDEX_SIZE_PER_ENTRY
    + dataSize fmt r.state.written

/-- The bookkeeping the pack loop maintains, for a run over `frameCount` paths:
the frame counter and the running offset agree with the history of frames
written, every recorded offset is the total size of the records before it, the
index buffer holds the entries of the frames written, an inter-frame flag is only
ever recorded after frame 0 and with the option on, and the header draft keeps
its frame count, loop flag and duration. -/
structure PackInv (fmt : QonFormat) (opt : PackOptions) (frameCount : Nat) (s : PackState) :
    Prop where
  frameNo : s.nextFrameNo = s.written.length
  offset : s.currentFileOffsetAfterHeader = dataSize fmt s.written
  offsets : ∀ (i : Nat) (w : FrameWrite), s.written[i]? = some w → w.offset = dataSize fmt (s.written.take i)
  index : s.frameIndexBuffer
    = indexImage fmt (List.replicate (frameCount * fmt.QON_INDEX_SIZE_PER_ENTRY) 0) 0 s.written
  flags : ∀ (i : Nat) (w : FrameWrite), s.written[i]? = some w →
    w.flags = 0 ∨ (w.flags = QON_FRAME_FLAGS_INTERFRAME_COMPRESSION ∧ 0 < i
                    ∧ opt.useInterFrameCompression = true)
  added : s.addedInterFrameCompressedData = true ↔ ∃ w ∈ s.written, w.flags ≠ 0
  count : s.qonHeader.frame_count = frameCount
  headerFlags : s.qonHeader.flags = if opt.loopAnimation then QON_FLAGS_LOOP_ANIMATION else 0
  duration : s.qonHeader.frame_duration_in_microseconds = opt.delay

/-- The output file during the pack loop, `base` being the start of the frame
data: nothing before the first record is written; afterwards a run of `base`
zero bytes followed by the records, with the put position at the end. -/
structure FileInv (fmt : QonFormat) (base : Nat) (s : PackState) : Prop where
  pos : s.outfile.pos = base + dataSize fmt s.written
  empty : s.written = [] → s.outfile.data = []
  filled : s.written ≠ [] → s.outfile.data = List.replicate base 0 ++ dataBytes fmt s.written

/-- Two pack states that agree on what decides loading, validation and the
keyframe encoding of the next frame, the first having written no more bytes
than the second. -/
structure PackSim (s t : PackState) : Prop where
  frameNo : s.nextFrameNo = t.nextFrameNo
  desc : s.qoi2Header = t.qoi2Header
  capacity : s.maxCompressedFrameSize = t.maxCompressedFrameSize
  width : s.qonHeader.width = t.qonHeader.width
  height : s.qonHeader.height = t.qonHeader.height
  channels : s.qonHeader.channels = t.qonHeader.channels
  colorspace : s.qonHeader.colorspace = t.qonHeader.colorspace
  size : s.currentFileOffsetAfterHeader ≤ t.currentFileOffsetAfterHeader

/-- The four geometry values of a loaded image. -/
def Image.geometry (img : Image) : Nat × Nat × Nat × Nat :=
  (img.w, img.h, img.channels, img.colorSpace)

/-- The four geometry values of a container header. -/
def qon_desc.geometry (h : qon_desc) : Nat × Nat × Nat × Nat :=
  (h.width, h.height, h.channels, h.colorspace)

/-- The codec descriptor of a geometry. -/
def descOf (g : Nat × Nat × Nat × Nat) : qoi2_desc :=
  { width := g.1, height := g.2.1, channels := g.2.2.1, colorspace := g.2.2.2 }

/-- Once a frame has been processed, the header draft, the codec descriptor and
the encode capacity are those latched from the geometry `g`. -/
def Latched (codec : PixelCodec) (g : Nat × Nat × Nat × Nat) (s : PackState) : Prop :=
  s.nextFrameNo = 0
    ∨ (s.qonHeader.geometry = g ∧ s.qoi2Header = descOf g
        ∧ s.maxCompressedFrameSize = codec.qoi2_max_encoded_data_size_without_header (descOf g))

/-- The output file while no header or index has been written: still empty with
the put position at `base`, or `base` zero bytes followed by what was written,
the put position at the end. -/
def Placeholder (base : Nat) (f : ofstream) : Prop :=
  (f.data = [] ∧ f.pos = base)
    ∨ (∃ rest, f.data = List.replicate base 0 ++ rest ∧ f.pos = f.data.length)

/-- The raster before frame `i` in a list of images: none for frame 0. -/
def prevOf (images : List Image) (i : Nat) : Option (List Byte) :=
  if i = 0 then none else images[i - 1]?.map (fun img => img.pixels)

/-- The index codec decodes what it encodes, for offsets below `limit` and the
two flag values pack stores: after an entry is stored in a slot inside the
buffer, decoding that slot gives the offset and flags stored, and the other
slots decode as before. -/
def IndexOK (fmt : QonFormat) (limit : Nat) : Prop :=
  ∀ buf i off fl, (i + 1) * fmt.QON_INDEX_SIZE_PER_ENTRY ≤ buf.length → off < limit → fl ≤ 1 →
    fmt.qon_decode_index_entry (fmt.qon_encode_index_entry buf i off fl) i = (off, fl)
    ∧ ∀ j, j ≠ i →
        fmt.qon_decode_index_entry (fmt.qon_encode_index_entry buf i off fl) j
          = fmt.qon_decode_index_entry buf j

/-- Frame `i` of `images` was encoded into the record `w`: as a keyframe with
the flags clear, or against the raster of frame `i - 1` with the inter-frame
flag set. -/
def FrameEnc (codec : PixelCodec) (g : Nat × Nat × Nat × Nat) (images : List Image) (i : Nat)
    (img : Image) (w : FrameWrite) : Prop :=
  (w.flags = 0
      ∧ codec.qoi2_encode_data img.pixels img.channels (descOf g) none
          (codec.qoi2_max_encoded_data_size_without_header (descOf g)) = some w.payload)
    ∨ (w.flags = QON_FRAME_FLAGS_INTERFRAME_COMPRESSION ∧ 0 < i
        ∧ codec.qoi2_encode_data img.pixels img.channels (descOf g) (prevOf images i)
            (codec.qoi2_max_encoded_data_size_without_header (descOf g)) = some w.payload)

/-- The records written so far are the encodings of the first frames of
`images`, and the raster retained is that of the last frame written. -/
structure EncInv (codec : PixelCodec) (g : Nat × Nat × Nat × Nat) (images : List Image)
    (s : PackState) : Prop where
  frameNo : s.nextFrameNo = s.written.length
  latched : Latched codec g s
  last : s.lastFramePixels = prevOf images s.written.length
  frames : ∀ (i : Nat) (w : FrameWrite), s.written[i]? = some w →
    ∃ img, images[i]? = some img ∧ FrameEnc codec g images i img w

/-! ## Properties -/

/-! ### Streams -/

theorem ofstream.write_at_end (f : ofstream) (bs : List Byte) (h : f.pos = f.data.length) :
    f.write bs = { data := f.data ++ bs, pos := f.pos + bs.length } := by
  unfold ofstream.write
  cases bs with
  | nil => simp
  | cons b bs =>
    simp only [List.isEmpty_cons, Bool.false_eq_true, ↓reduceIte, h, List.take_length,
      Nat.sub_self, List.replicate_zero, List.append_nil]
    rw [List.drop_eq_nil_of_le (by simp)]
    simp

theorem ofstream.write_gap (f : ofstream) (bs : List Byte) (h : f.data = []) (hb : bs ≠ []) :
    f.write bs = { data := List.replicate f.pos 0 ++ bs, pos := f.pos + bs.length } := by
  unfold ofstream.write
  cases bs with
  | nil => exact absurd rfl hb
  | cons b bs => simp [h]

theorem ofstream.write_inside (f : ofstream) (bs : List Byte)
    (h : f.pos + bs.length ≤ f.data.length) :
    f.write bs = { data := f.data.take f.pos ++ bs ++ f.data.drop (f.pos + bs.length),
                   pos := f.pos + bs.length } := by
  unfold ofstream.write
  cases bs with
  | nil =>
    cases f
    simp
  | cons b bs =>
    have : f.pos - f.data.length = 0 := by omega
    simp [this]

theorem ifstream.read_ok (f : ifstream) (n : Nat) (buf bs : List Byte) (hf : f.fail = false)
    (h : (f.data.drop f.pos).take n = bs) (hl : bs.length = n) :
    f.read n buf = (bs, { f with pos := f.pos + n }) := by
  unfold ifstream.read
  rw [if_neg (by simp [hf])]
  simp only [h, hl, if_true]

/-! ### The pack loop -/

theorem dataSize_append (fmt : QonFormat) (ws : List FrameWrite) (w : FrameWrite) :
    dataSize fmt (ws ++ [w]) = dataSize fmt ws + recordSize fmt w := by
  induction ws with
  | nil => simp [dataSize]
  | cons a ws ih => simp [dataSize, ih]; omega

theorem dataBytes_append (fmt : QonFormat) (ws : List FrameWrite) (w : FrameWrite) :
    dataBytes fmt (ws ++ [w]) = dataBytes fmt ws ++ recordBytes fmt w := by
  induction ws with
  | nil => simp [dataBytes]
  | cons a ws ih => simp [dataBytes, ih]

theorem dataBytes_length (fmt : QonFormat)
    (hsz : ∀ n, (fmt.qon_encode_frame_size n).length = fmt.QON_FRAME_SIZE_SIZE)
    (ws : List FrameWrite) : (dataBytes fmt ws).length = dataSize fmt ws := by
  induction ws with
  | nil => simp [dataBytes, dataSize]
  | cons a ws ih => simp [dataBytes, dataSize, recordBytes, recordSize, ih, hsz]; omega

theorem indexImage_append (fmt : QonFormat) (buf : List Byte) (i : Nat) (ws : List FrameWrite)
    (w : FrameWrite) :
    indexImage fmt buf i (ws ++ [w])
      = fmt.qon_encode_index_entry (indexImage fmt buf i ws) (i + ws.length) w.offset w.flags := by
  induction ws generalizing buf i with
  | nil => simp [indexImage]
  | cons a ws ih =>
    have e : (a :: ws) ++ [w] = a :: (ws ++ [w]) := rfl
    rw [e]
    simp only [indexImage, List.length_cons]
    rw [ih]
    congr 1
    omega

theorem indexImage_length (fmt : QonFormat)
    (hix : ∀ buf i off fl, (fmt.qon_encode_index_entry buf i off fl).length = buf.length)
    (buf : List Byte) (i : Nat) (ws : List FrameWrite) :
    (indexImage fmt buf i ws).length = buf.length := by
  induction ws generalizing buf i with
  | nil => simp [indexImage]
  | cons a ws ih => simp [indexImage, ih, hix]

theorem latchOrValidate_some {codec : PixelCodec} {s s1 : PackState} {img : Image}
    (h : latchOrValidate codec s img = some s1) :
    s1.outfile = s.outfile ∧ s1.frameIndexBuffer = s.frameIndexBuffer
      ∧ s1.nextFrameNo = s.nextFrameNo ∧ s1.written = s.written
      ∧ s1.currentFileOffsetAfterHeader = s.currentFileOffsetAfterHeader
      ∧ s1.addedInterFrameCompressedData = s.addedInterFrameCompressedData
      ∧ s1.lastFramePixels = s.lastFramePixels
      ∧ s1.qonHeader.frame_count = s.qonHeader.frame_count
      ∧ s1.qonHeader.flags = s.qonHeader.flags
      ∧ s1.qonHeader.frame_duration_in_microseconds
          = s.qonHeader.frame_duration_in_microseconds := by
  unfold latchOrValidate at h
  split at h
  · cases h; simp
  · split at h
    · cases h
    · cases h; simp

theorem packFrame_ok {env : Env} {opt : PackOptions} {s s2 : PackState} {filePath : String}
    (h : packFrame env opt s filePath = .ok s2) :
    ∃ img s1 keyFrame, loadImage env filePath = .loaded img
      ∧ latchOrValidate env.codec s img = some s1
      ∧ env.codec.qoi2_encode_data img.pixels img.channels s1.qoi2Header none
          s1.maxCompressedFrameSize = some keyFrame
      ∧ ((opt.useInterFrameCompression = true ∧ 0 < s.nextFrameNo
            ∧ ∃ interFrame, env.codec.qoi2_encode_data img.pixels img.channels s1.qoi2Header
                  s.lastFramePixels s1.maxCompressedFrameSize = some interFrame
                ∧ s2 = writeFrame env.fmt s1 img.pixels keyFrame (some interFrame))
          ∨ ((opt.useInterFrameCompression = false ∨ s.nextFrameNo = 0)
              ∧ s2 = writeFrame env.fmt s1 img.pixels keyFrame none)) := by
  unfold packFrame at h
  split at h
  · cases h
  · cases h
  · rename_i img hload
    split at h
    · cases h
    · rename_i s1 hlatch
      obtain ⟨-, -, hn, -, -, -, hl, -⟩ := latchOrValidate_some hlatch
      split at h
      · cases h
      · rename_i keyFrame hkey
        refine ⟨img, s1, keyFrame, hload, hlatch, hkey, ?_⟩
        split at h
        · rename_i hc
          simp only [Bool.and_eq_true, decide_eq_true_eq] at hc
          split at h
          · cases h
          · rename_i interFrame hinter
            left
            refine ⟨hc.1, by omega, interFrame, ?_, ?_⟩
            · rw [← hl]; exact hinter
            · cases h; rfl
        · rename_i hc
          right
          simp only [Bool.and_eq_true, decide_eq_true_eq, not_and, not_lt,
            Nat.le_zero_eq] at hc
          refine ⟨?_, by cases h; rfl⟩
          by_cases hu : opt.useInterFrameCompression = true
          · right; rw [← hn]; exact hc hu
          · left; simpa using hu

/-- What one successful iteration changes, in terms of the payload and the
flags it selected. -/
theorem packFrame_step {env : Env} {opt : PackOptions} {s s2 : PackState} {filePath : String}
    (h : packFrame env opt s filePath = .ok s2) :
    ∃ img s1 keyFrame payload flags,
      loadImage env filePath = .loaded img
      ∧ latchOrValidate env.codec s img = some s1
      ∧ env.codec.qoi2_encode_data img.pixels img.channels s1.qoi2Header none
          s1.maxCompressedFrameSize = some keyFrame
      ∧ s2.outfile
          = (s.outfile.write (env.fmt.qon_encode_frame_size payload.length)).write payload
      ∧ s2.frameIndexBuffer
          = env.fmt.qon_encode_index_entry s.frameIndexBuffer s.nextFrameNo
              s.currentFileOffsetAfterHeader flags
      ∧ s2.written
          = s.written ++ [{ offset := s.currentFileOffsetAfterHeader, flags := flags,
                            payload := payload }]
      ∧ s2.currentFileOffsetAfterHeader
          = s.currentFileOffsetAfterHeader + (env.fmt.QON_FRAME_SIZE_SIZE + payload.length)
      ∧ s2.nextFrameNo = s.nextFrameNo + 1
      ∧ s2.lastFramePixels = some img.pixels
      ∧ s2.qonHeader = s1.qonHeader ∧ s2.qoi2Header = s1.qoi2Header
      ∧ s2.maxCompressedFrameSize = s1.maxCompressedFrameSize
      ∧ s2.addedInterFrameCompressedData
          = (s.addedInterFrameCompressedData || decide (flags ≠ 0))
      ∧ ((opt.useInterFrameCompression = true ∧ 0 < s.nextFrameNo
            ∧ (∃ interFrame, env.codec.qoi2_encode_data img.pixels img.channels s1.qoi2Header
                  s.lastFramePixels s1.maxCompressedFrameSize = some interFrame
                ∧ interFrame.length < keyFrame.length ∧ payload = interFrame)
            ∧ flags = QON_FRAME_FLAGS_INTERFRAME_COMPRESSION)
          ∨ (¬ (opt.useInterFrameCompression = true ∧ 0 < s.nextFrameNo
                ∧ ∃ interFrame, env.codec.qoi2_encode_data img.pixels img.channels
                    s1.qoi2Header s.lastFramePixels s1.maxCompressedFrameSize = some interFrame
                  ∧ interFrame.length < keyFrame.length)
              ∧ payload = keyFrame ∧ flags = 0)) := by
  obtain ⟨img, s1, keyFrame, hload, hlatch, hkey, hsel⟩ := packFrame_ok h
  obtain ⟨ho, hi, hn, hw, hc, ha, hl, -⟩ := latchOrValidate_some hlatch
  rcases hsel with ⟨hu, hpos, interFrame, hinter, rfl⟩ | ⟨hno, rfl⟩
  · by_cases hlt : interFrame.length < keyFrame.length
    · refine ⟨img, s1, keyFrame, interFrame, QON_FRAME_FLAGS_INTERFRAME_COMPRESSION, hload,
        hlatch, hkey, ?_, ?_, ?_, ?_, ?_, ?_, ?_, ?_, ?_, ?_, ?_⟩
      all_goals first
        | (left; exact ⟨hu, hpos, ⟨interFrame, hinter, hlt, rfl⟩, rfl⟩)
        | simp [writeFrame, hlt, ho, hi, hn, hw, hc, ha, QON_FRAME_FLAGS_INTERFRAME_COMPRESSION]
    · refine ⟨img, s1, keyFrame, keyFrame, 0, hload, hlatch, hkey, ?_, ?_, ?_, ?_, ?_, ?_, ?_,
        ?_, ?_, ?_, ?_⟩
      all_goals first
        | (right
           refine ⟨?_, rfl, rfl⟩
           rintro ⟨-, -, i2, hi2, hlt2⟩
           rw [hinter] at hi2
           cases hi2
           exact hlt hlt2)
        | simp [writeFrame, hlt, ho, hi, hn, hw, hc, ha]
  · refine ⟨img, s1, keyFrame, keyFrame, 0, hload, hlatch, hkey, ?_, ?_, ?_, ?_, ?_, ?_, ?_,
      ?_, ?_, ?_, ?_⟩
    all_goals first
      | (right
         refine ⟨?_, rfl, rfl⟩
         rintro ⟨hu, hpos, -⟩
         rcases hno with hno | hno
         · rw [hno] at hu; cases hu
         · omega)
      | simp [writeFrame, ho, hi, hn, hw, hc, ha]

theorem packLoop_invariant (env : Env) (opt : PackOptions) (P : PackState → Prop)
    (hstep : ∀ s filePath s2, P s → packFrame env opt s filePath = .ok s2 → P s2)
    (paths : List String) (s : PackState) (h : P s) : P (packLoop env opt s paths).1 := by
  induction paths generalizing s with
  | nil => exact h
  | cons p ps ih =>
    unfold packLoop
    split
    · exact h
    · rename_i s1 hs1
      exact ih s1 (hstep s p s1 h hs1)

theorem getElem?_snoc {α : Type} (ws : List α) (w x : α) (i : Nat)
    (h : (ws ++ [w])[i]? = some x) :
    (i < ws.length ∧ ws[i]? = some x) ∨ (i = ws.length ∧ x = w) := by
  by_cases hi : i < ws.length
  · left
    rw [List.getElem?_append_left hi] at h
    exact ⟨hi, h⟩
  · right
    have hi2 : ws.length ≤ i := by omega
    rw [List.getElem?_append_right hi2] at h
    by_cases h0 : i - ws.length = 0
    · rw [h0] at h
      simp at h
      exact ⟨by omega, h.symm⟩
    · obtain ⟨k, hk⟩ := Nat.exists_eq_succ_of_ne_zero h0
      rw [hk] at h
      simp at h

theorem packInit_inv (fmt : QonFormat) (opt : PackOptions) (junk : qon_desc) (junk2 : qoi2_desc)
    (n : Nat) : PackInv fmt opt n (packInit fmt opt junk junk2 n) := by
  constructor <;> simp [packInit, dataSize, indexImage]

theorem packFrame_inv {env : Env} {opt : PackOptions} {n : Nat} {s s2 : PackState}
    {filePath : String} (hinv : PackInv env.fmt opt n s)
    (h : packFrame env opt s filePath = .ok s2) : PackInv env.fmt opt n s2 := by
  obtain ⟨img, s1, keyFrame, payload, flags, -, hlatch, -, -, hix, hw, hoff, hno, -, hqh, -, -,
    hadd, hsel⟩ := packFrame_step h
  obtain ⟨-, -, -, -, -, -, -, hfc, hfl, hdu⟩ := latchOrValidate_some hlatch
  constructor
  · rw [hno, hw, hinv.frameNo]; simp
  · rw [hoff, hw, dataSize_append, hinv.offset]; rfl
  · intro i w hiw
    rw [hw] at hiw ⊢
    rcases getElem?_snoc _ _ _ _ hiw with ⟨hi, hiw2⟩ | ⟨hi, rfl⟩
    · rw [List.take_append_of_le_length (by omega)]
      exact hinv.offsets i w hiw2
    · rw [hi, List.take_append_of_le_length (by omega), List.take_length]
      exact hinv.offset
  · rw [hix, hw, indexImage_append, ← hinv.index, hinv.frameNo]
    simp
  · intro i w hiw
    rw [hw] at hiw
    rcases getElem?_snoc _ _ _ _ hiw with ⟨-, hiw2⟩ | ⟨hi, rfl⟩
    · exact hinv.flags i w hiw2
    · rcases hsel with ⟨hu, hpos, -, hf⟩ | ⟨-, -, hf⟩
      · right
        refine ⟨hf, ?_, hu⟩
        rw [hi, ← hinv.frameNo]; exact hpos
      · left; exact hf
  · rw [hadd, hw]
    simp only [Bool.or_eq_true, decide_eq_true_eq, List.mem_append, List.mem_singleton]
    rw [hinv.added]
    constructor
    · rintro (⟨w, hw1, hw2⟩ | hf)
      · exact ⟨w, Or.inl hw1, hw2⟩
      · exact ⟨_, Or.inr rfl, hf⟩
    · rintro ⟨w, hw1 | rfl, hw2⟩
      · exact Or.inl ⟨w, hw1, hw2⟩
      · exact Or.inr hw2
  · rw [hqh, hfc]; exact hinv.count
  · rw [hqh, hfl]; exact hinv.headerFlags
  · rw [hqh, hdu]; exact hinv.duration

theorem packLoop_inv (env : Env) (opt : PackOptions) (junk : qon_desc) (junk2 : qoi2_desc)
    (n : Nat) (paths : List String) :
    PackInv env.fmt opt n (packLoop env opt (packInit env.fmt opt junk junk2 n) paths).1 :=
  packLoop_invariant env opt (PackInv env.fmt opt n)
    (fun _ _ _ hs hstep => packFrame_inv hs hstep) paths _ (packInit_inv env.fmt opt junk junk2 n)

theorem packFrame_fileInv {env : Env} {opt : PackOptions} {base : Nat} {s s2 : PackState}
    {filePath : String} (hsz : SizesOK env.fmt) (hinv : FileInv env.fmt base s)
    (h : packFrame env opt s filePath = .ok s2) : FileInv env.fmt base s2 := by
  obtain ⟨img, s1, keyFrame, payload, flags, -, -, -, hout, -, hw, -⟩ := packFrame_step h
  obtain ⟨hpos, hlen, -, -⟩ := hsz
  have hne : env.fmt.qon_encode_frame_size payload.length ≠ [] := by
    intro h0
    have := hlen payload.length
    rw [h0] at this
    simp at this
    omega
  have key : s2.outfile
      = { data := List.replicate base 0 ++ dataBytes env.fmt s2.written,
          pos := base + dataSize env.fmt s2.written } := by
    rw [hout, hw, dataBytes_append, dataSize_append]
    by_cases hws : s.written = []
    · have hd := hinv.empty hws
      have hp := hinv.pos
      rw [hws] at hp ⊢
      simp only [dataSize, Nat.add_zero] at hp
      rw [ofstream.write_gap _ _ hd hne]
      rw [ofstream.write_at_end _ payload (by simp [hp, hlen])]
      simp [dataBytes, dataSize, recordBytes, recordSize, hp, hlen]
      omega
    · have hd := hinv.filled hws
      have hp := hinv.pos
      have hl := dataBytes_length env.fmt hlen s.written
      have e1 : s.outfile.pos = s.outfile.data.length := by simp [hp, hd, hl]
      rw [ofstream.write_at_end s.outfile _ e1]
      rw [ofstream.write_at_end _ payload (by simp [hp, hd, hl, hlen]; omega)]
      simp [hd, hp, recordBytes, recordSize, hlen]
      omega
  constructor
  · rw [key]
  · intro h0
    rw [hw] at h0
    simp at h0
  · intro _
    rw [key]

theorem packInit_fileInv (fmt : QonFormat) (opt : PackOptions) (junk : qon_desc)
    (junk2 : qoi2_desc) (n : Nat) :
    FileInv fmt (fmt.QON_BARE_HEADER_SIZE + n * fmt.QON_INDEX_SIZE_PER_ENTRY)
      (packInit fmt opt junk junk2 n) := by
  constructor <;> simp [packInit, dataSize, ofstream.opened, ofstream.seekp]

theorem packLoop_fileInv (env : Env) (opt : PackOptions) (junk : qon_desc) (junk2 : qoi2_desc)
    (n : Nat) (paths : List String) (hsz : SizesOK env.fmt) :
    FileInv env.fmt (env.fmt.QON_BARE_HEADER_SIZE + n * env.fmt.QON_INDEX_SIZE_PER_ENTRY)
      (packLoop env opt (packInit env.fmt opt junk junk2 n) paths).1 :=
  packLoop_invariant env opt _
    (fun _ _ _ hs hstep => packFrame_fileInv hsz hs hstep) paths _
    (packInit_fileInv env.fmt opt junk junk2 n)

theorem packLoop_written_length (env : Env) (opt : PackOptions) (paths : List String)
    (s t : PackState) (h : packLoop env opt s paths = (t, none)) :
    t.written.length = s.written.length + paths.length := by
  induction paths generalizing s with
  | nil =>
    simp only [packLoop, Prod.mk.injEq, and_true] at h
    subst h
    simp
  | cons p ps ih =>
    unfold packLoop at h
    split at h
    · cases h
    · rename_i s1 hs1
      obtain ⟨_, _, _, _, _, -, -, -, -, -, hw, -⟩ := packFrame_step hs1
      rw [ih s1 h, hw]
      simp
      omega

/-- A pack that exits with status 0 ran the loop to its end, encoded the final
header and wrote the index and the header in front of the frame data. -/
theorem pack_success {env : Env} {opt : PackOptions} {junk : qon_desc} {junk2 : qoi2_desc}
    {outfilePath : String} {paths : List String}
    (h : (pack env opt junk junk2 outfilePath paths).exitStatus = 0) :
    ∃ s bs, packLoop env opt (packInit env.fmt opt junk junk2 paths.length) paths = (s, none)
      ∧ env.fmt.qon_encode_header (finalHeader opt s) = some bs
      ∧ pack env opt junk junk2 outfilePath paths
          = { exitStatus := 0, error := none,
              state := { s with
                outfile := (((s.outfile.seekp env.fmt.QON_BARE_HEADER_SIZE).write
                              s.frameIndexBuffer).seekp 0).write bs
                qonHeader := finalHeader opt s } } := by
  unfold pack at h ⊢
  split at h
  · simp at h
  · rename_i s hloop
    cases hbs : env.fmt.qon_encode_header (finalHeader opt s) with
    | none => simp [hbs] at h
    | some bs =>
      refine ⟨s, bs, hloop, hbs, ?_⟩
      simp only [hloop, hbs]

/-- The state a pack ends with holds the history of the loop state, whatever
the exit status. -/
theorem pack_written (env : Env) (opt : PackOptions) (junk : qon_desc) (junk2 : qoi2_desc)
    (outfilePath : String) (paths : List String) :
    (pack env opt junk junk2 outfilePath paths).state.written
        = (packLoop env opt (packInit env.fmt opt junk junk2 paths.length) paths).1.written
      ∧ (pack env opt junk junk2 outfilePath paths).state.frameIndexBuffer
        = (packLoop env opt (packInit env.fmt opt junk junk2 paths.length)
            paths).1.frameIndexBuffer
      ∧ (pack env opt junk junk2 outfilePath paths).state.currentFileOffsetAfterHeader
        = (packLoop env opt (packInit env.fmt opt junk junk2 paths.length)
            paths).1.currentFileOffsetAfterHeader := by
  unfold pack
  split
  · rename_i s e hloop
    simp [hloop]
  · rename_i s hloop
    cases hbs : env.fmt.qon_encode_header (finalHeader opt s) <;> simp [hloop, hbs]

/-- Layout of the file a successful pack leaves: header, index, records. -/
theorem pack_file {env : Env} {opt : PackOptions} {junk : qon_desc} {junk2 : qoi2_desc}
    {outfilePath : String} {paths : List String} (hsz : SizesOK env.fmt)
    (h : (pack env opt junk junk2 outfilePath paths).exitStatus = 0) :
    ∃ bs, env.fmt.qon_encode_header (pack env opt junk junk2 outfilePath paths).state.qonHeader
          = some bs
      ∧ bs.length = env.fmt.QON_BARE_HEADER_SIZE
      ∧ (pack env opt junk junk2 outfilePath paths).state.frameIndexBuffer.length
          = paths.length * env.fmt.QON_INDEX_SIZE_PER_ENTRY
      ∧ (pack env opt junk junk2 outfilePath paths).state.written.length = paths.length
      ∧ (pack env opt junk junk2 outfilePath paths).state.outfile.data
          = bs ++ (pack env opt junk junk2 outfilePath paths).state.frameIndexBuffer
              ++ dataBytes env.fmt (pack env opt junk junk2 outfilePath paths).state.written := by
  obtain ⟨s, bs, hloop, hbs, hr⟩ := pack_success h
  have hinv := packLoop_inv env opt junk junk2 paths.length paths
  have hfile := packLoop_fileInv env opt junk junk2 paths.length paths hsz
  have hlen := packLoop_written_length env opt paths _ _ hloop
  rw [hloop] at hinv hfile
  simp only at hinv hfile
  obtain ⟨hpos, hfs, hix, hhd⟩ := hsz
  have hbl := hhd _ _ hbs
  have hil : s.frameIndexBuffer.length = paths.length * env.fmt.QON_INDEX_SIZE_PER_ENTRY := by
    rw [hinv.index, indexImage_length env.fmt hix]
    simp
  have hwl : s.written.length = paths.length := by
    rw [hlen]; simp [packInit]
  rw [hr]
  refine ⟨bs, hbs, hbl, hil, hwl, ?_⟩
  simp only
  by_cases hws : s.written = []
  · have hp0 : paths.length = 0 := by rw [← hwl, hws]; rfl
    have hi0 : s.frameIndexBuffer = [] := by
      apply List.eq_nil_of_length_eq_zero
      rw [hil, hp0]; simp
    have hd := hfile.empty hws
    rw [hws, hi0]
    have e1 : (s.outfile.seekp env.fmt.QON_BARE_HEADER_SIZE).write [] 
        = s.outfile.seekp env.fmt.QON_BARE_HEADER_SIZE := by
      simp [ofstream.write]
    rw [e1]
    by_cases hb : bs = []
    · subst hb
      simp [ofstream.write, ofstream.seekp, hd, dataBytes]
    · rw [ofstream.write_gap _ _ (by simp [ofstream.seekp, hd]) hb]
      simp [ofstream.seekp, dataBytes]
  · have hd := hfile.filled hws
    have hdl := dataBytes_length env.fmt hfs s.written
    have ho1 : (s.outfile.seekp env.fmt.QON_BARE_HEADER_SIZE).write s.frameIndexBuffer
        = { data := List.replicate env.fmt.QON_BARE_HEADER_SIZE 0 ++ s.frameIndexBuffer
                      ++ dataBytes env.fmt s.written,
            pos := env.fmt.QON_BARE_HEADER_SIZE + s.frameIndexBuffer.length } := by
      rw [ofstream.write_inside _ _ (by simp [ofstream.seekp, hd, hil])]
      simp only [ofstream.seekp, hd, hil]
      rw [List.replicate_add]
      simp [List.drop_append_eq_append_drop, List.take_append_eq_append_take]
    rw [ho1]
    rw [ofstream.write_inside _ _ (by simp [ofstream.seekp, hil, hbl])]
    simp only [ofstream.seekp, hil, hbl, List.take_zero, List.nil_append, Nat.zero_add]
    simp [List.drop_append_eq_append_drop, List.take_append_eq_append_take, hil]

/-! ### Selection of the encoding (C2) -/

/-- C2, selection rule of pack.  For the frame the loop is at (number
`s.nextFrameNo`), loaded as `img`, with keyframe encoding `keyFrame` and, when
the inter-frame option is on and the frame number is positive, inter-frame
encoding `interFrame`: the iteration succeeds; the record written is the size
field for the chosen payload followed by that payload, and the index entry
stored for this frame carries the chosen flags, where the payload is
`interFrame` and the flag is set exactly when the option is on, the frame number
is positive and `interFrame` is strictly shorter than `keyFrame`, and otherwise
(equal lengths included) the payload is `keyFrame` and the flags are 0. -/
theorem pack_selection_rule (env : Env) (opt : PackOptions) (s s1 : PackState)
    (filePath : String) (img : Image) (keyFrame interFrame : List Byte)
    (hload : loadImage env filePath = .loaded img)
    (hlatch : latchOrValidate env.codec s img = some s1)
    (hkey : env.codec.qoi2_encode_data img.pixels img.channels s1.qoi2Header none
              s1.maxCompressedFrameSize = some keyFrame)
    (hinter : opt.useInterFrameCompression = true → 0 < s.nextFrameNo →
      env.codec.qoi2_encode_data img.pixels img.channels s1.qoi2Header s.lastFramePixels
        s1.maxCompressedFrameSize = some interFrame) :
    ∃ s2 payload flags,
      packFrame env opt s filePath = .ok s2
      ∧ s2.outfile
          = (s.outfile.write (env.fmt.qon_encode_frame_size payload.length)).write payload
      ∧ s2.frameIndexBuffer
          = env.fmt.qon_encode_index_entry s.frameIndexBuffer s.nextFrameNo
              s.currentFileOffsetAfterHeader flags
      ∧ s2.currentFileOffsetAfterHeader
          = s.currentFileOffsetAfterHeader + (env.fmt.QON_FRAME_SIZE_SIZE + payload.length)
      ∧ (flags &&& QON_FRAME_FLAGS_INTERFRAME_COMPRESSION ≠ 0
          ↔ (opt.useInterFrameCompression = true ∧ 0 < s.nextFrameNo
              ∧ interFrame.length < keyFrame.length))
      ∧ ((opt.useInterFrameCompression = true ∧ 0 < s.nextFrameNo
              ∧ interFrame.length < keyFrame.length) →
            payload = interFrame ∧ flags = QON_FRAME_FLAGS_INTERFRAME_COMPRESSION)
      ∧ (¬ (opt.useInterFrameCompression = true ∧ 0 < s.nextFrameNo
              ∧ interFrame.length < keyFrame.length) →
            payload = keyFrame ∧ flags = 0) := by
  obtain ⟨ho, hi, hn, hw, hc, ha, hl, -⟩ := latchOrValidate_some hlatch
  by_cases hgen : opt.useInterFrameCompression = true ∧ 0 < s.nextFrameNo
  · have hin := hinter hgen.1 hgen.2
    rw [← hl] at hin
    have hpf : packFrame env opt s filePath
        = .ok (writeFrame env.fmt s1 img.pixels keyFrame (some interFrame)) := by
      unfold packFrame
      simp only [hload, hlatch, hkey]
      have hcond : (opt.useInterFrameCompression && decide (s1.nextFrameNo > 0)) = true := by
        simp [hgen.1, hn, hgen.2]
      rw [if_pos hcond]
      simp only [hin]
    by_cases hlt : interFrame.length < keyFrame.length
    · refine ⟨_, interFrame, QON_FRAME_FLAGS_INTERFRAME_COMPRESSION, hpf, ?_, ?_, ?_, ?_, ?_, ?_⟩
      · simp [writeFrame, hlt, ho]
      · simp [writeFrame, hlt, hi, hn, hc]
      · simp [writeFrame, hlt, hc]
      · simp [QON_FRAME_FLAGS_INTERFRAME_COMPRESSION, hgen.1, hgen.2, hlt]
      · intro _; exact ⟨rfl, rfl⟩
      · intro hno; exact absurd ⟨hgen.1, hgen.2, hlt⟩ hno
    · refine ⟨_, keyFrame, 0, hpf, ?_, ?_, ?_, ?_, ?_, ?_⟩
      · simp [writeFrame, hlt, ho]
      · simp [writeFrame, hlt, hi, hn, hc]
      · simp [writeFrame, hlt, hc]
      · simp [hlt]
      · intro hyes; exact absurd hyes.2.2 hlt
      · intro _; exact ⟨rfl, rfl⟩
  · have hpf : packFrame env opt s filePath
        = .ok (writeFrame env.fmt s1 img.pixels keyFrame none) := by
      unfold packFrame
      simp only [hload, hlatch, hkey]
      have hcond : ¬ (opt.useInterFrameCompression && decide (s1.nextFrameNo > 0)) = true := by
        simp only [Bool.and_eq_true, decide_eq_true_eq, hn]
        exact hgen
      rw [if_neg hcond]
    have hno : ¬ (opt.useInterFrameCompression = true ∧ 0 < s.nextFrameNo
              ∧ interFrame.length < keyFrame.length) := fun hx => hgen ⟨hx.1, hx.2.1⟩
    refine ⟨_, keyFrame, 0, hpf, ?_, ?_, ?_, ?_, ?_, ?_⟩
    · simp [writeFrame, ho]
    · simp [writeFrame, hi, hn, hc]
    · simp [writeFrame, hc]
    · simp only [Nat.zero_and, ne_eq, not_true_eq_false, false_iff]
      exact hno
    · intro hyes; exact absurd hyes hno
    · intro _; exact ⟨rfl, rfl⟩

/-- Witness for C2: the second frame of the concrete run equals the first, its
inter-frame encoding is one byte against four, and it is written inter-frame
encoded with the flag set. -/
theorem pack_selection_rule_witness :
    loadImage demoEnv "red2.qoi"
        = .loaded { pixels := [255, 0, 0], w := 1, h := 1, channels := 3, colorSpace := 0 }
      ∧ latchOrValidate demoCodec (demoAfter 1)
          { pixels := [255, 0, 0], w := 1, h := 1, channels := 3, colorSpace := 0 }
          = some (demoAfter 1)
      ∧ ∃ s2 payload flags,
          packFrame demoEnv demoOptions (demoAfter 1) "red2.qoi" = .ok s2
          ∧ s2.outfile = ((demoAfter 1).outfile.write
              (demoFormat.qon_encode_frame_size payload.length)).write payload
          ∧ s2.frameIndexBuffer
              = demoFormat.qon_encode_index_entry (demoAfter 1).frameIndexBuffer 1 6 flags
          ∧ s2.currentFileOffsetAfterHeader = 6 + (2 + payload.length)
          ∧ payload = [1] ∧ flags = 1 := by
  have hload : loadImage demoEnv "red2.qoi"
        = .loaded { pixels := [255, 0, 0], w := 1, h := 1, channels := 3, colorSpace := 0 } := by
    decide
  have hlatch : latchOrValidate demoEnv.codec (demoAfter 1)
          { pixels := [255, 0, 0], w := 1, h := 1, channels := 3, colorSpace := 0 }
          = some (demoAfter 1) := by decide
  refine ⟨hload, hlatch, ?_⟩
  obtain ⟨s2, payload, flags, h1, h2, h3, h4, -, h6, -⟩ :=
    pack_selection_rule demoEnv demoOptions (demoAfter 1) (demoAfter 1) "red2.qoi" _
      [0, 255, 0, 0] [1] hload hlatch (by decide) (fun _ _ => by decide)
  obtain ⟨hp, hf⟩ := h6 (by decide)
  exact ⟨s2, payload, flags, h1, h2, h3, h4, hp, hf⟩

/-! ### Inter-frame compression never enlarges the container (C3) -/

theorem latchOrValidate_geometry {codec : PixelCodec} {s s1 : PackState} {img : Image}
    (h : latchOrValidate codec s img = some s1) :
    (s.nextFrameNo = 0 →
        s1.qoi2Header = { width := img.w, height := img.h, channels := img.channels,
                          colorspace := img.colorSpace }
        ∧ s1.maxCompressedFrameSize = codec.qoi2_max_encoded_data_size_without_header
            { width := img.w, height := img.h, channels := img.channels,
              colorspace := img.colorSpace }
        ∧ s1.qonHeader.width = img.w ∧ s1.qonHeader.height = img.h
        ∧ s1.qonHeader.channels = img.channels ∧ s1.qonHeader.colorspace = img.colorSpace)
    ∧ (s.nextFrameNo ≠ 0 → s1 = s ∧ geometryMismatch img s.qonHeader = false) := by
  unfold latchOrValidate at h
  split at h
  · rename_i h0
    cases h
    exact ⟨fun _ => ⟨rfl, rfl, rfl, rfl, rfl, rfl⟩, fun hne => absurd h0 hne⟩
  · rename_i h0
    split at h
    · cases h
    · rename_i hm
      cases h
      exact ⟨fun hz => absurd hz h0, fun _ => ⟨rfl, by simpa using hm⟩⟩

theorem packFrame_sim {env : Env} {opt opt2 : PackOptions} {s t s2 t2 : PackState}
    {filePath : String} (hoff : opt2.useInterFrameCompression = false) (hsim : PackSim s t)
    (hs : packFrame env opt s filePath = .ok s2) (ht : packFrame env opt2 t filePath = .ok t2) :
    PackSim s2 t2 := by
  obtain ⟨img, s1, keyFrame, payload, flags, hload, hlatch, hkey, -, -, -, hoffs, hno, -, hqh,
    hq2, hmax, -, hsel⟩ := packFrame_step hs
  obtain ⟨img2, t1, keyFrame2, payload2, flags2, hload2, hlatch2, hkey2, -, -, -, hoffs2, hno2,
    -, hqh2, hq22, hmax2, -, hsel2⟩ := packFrame_step ht
  rw [hload] at hload2
  cases hload2
  obtain ⟨hz, hnz⟩ := latchOrValidate_geometry hlatch
  obtain ⟨hz2, hnz2⟩ := latchOrValidate_geometry hlatch2
  have hst : s1.qoi2Header = t1.qoi2Header ∧ s1.maxCompressedFrameSize = t1.maxCompressedFrameSize
      ∧ s1.qonHeader.width = t1.qonHeader.width ∧ s1.qonHeader.height = t1.qonHeader.height
      ∧ s1.qonHeader.channels = t1.qonHeader.channels
      ∧ s1.qonHeader.colorspace = t1.qonHeader.colorspace := by
    by_cases h0 : s.nextFrameNo = 0
    · obtain ⟨a1, a2, a3, a4, a5, a6⟩ := hz h0
      obtain ⟨b1, b2, b3, b4, b5, b6⟩ := hz2 (by rw [← hsim.frameNo]; exact h0)
      exact ⟨by rw [a1, b1], by rw [a2, b2], by rw [a3, b3], by rw [a4, b4], by rw [a5, b5],
        by rw [a6, b6]⟩
    · obtain ⟨a, -⟩ := hnz h0
      obtain ⟨b, -⟩ := hnz2 (by rw [← hsim.frameNo]; exact h0)
      rw [a, b]
      exact ⟨hsim.desc, hsim.capacity, hsim.width, hsim.height, hsim.channels, hsim.colorspace⟩
  obtain ⟨e1, e2, e3, e4, e5, e6⟩ := hst
  rw [e1, e2, hkey2] at hkey
  cases hkey
  have hp2 : payload2 = keyFrame := by
    rcases hsel2 with ⟨hu, -⟩ | ⟨-, hp, -⟩
    · rw [hoff] at hu; cases hu
    · exact hp
  have hp1 : payload.length ≤ keyFrame.length := by
    rcases hsel with ⟨-, -, ⟨i, -, hlt, hp⟩, -⟩ | ⟨-, hp, -⟩
    · rw [hp]; omega
    · rw [hp]
  have hsz := hsim.size
  constructor
  · rw [hno, hno2, hsim.frameNo]
  · rw [hq2, hq22, e1]
  · rw [hmax, hmax2, e2]
  · rw [hqh, hqh2, e3]
  · rw [hqh, hqh2, e4]
  · rw [hqh, hqh2, e5]
  · rw [hqh, hqh2, e6]
  · rw [hoffs, hoffs2, hp2]; omega

theorem packFrame_off_ok {env : Env} {opt opt2 : PackOptions} {s t s2 : PackState}
    {filePath : String} (hoff : opt2.useInterFrameCompression = false) (hsim : PackSim s t)
    (hs : packFrame env opt s filePath = .ok s2) :
    ∃ t2, packFrame env opt2 t filePath = .ok t2 := by
  obtain ⟨img, s1, keyFrame, hload, hlatch, hkey, -⟩ := packFrame_ok hs
  obtain ⟨hz, hnz⟩ := latchOrValidate_geometry hlatch
  obtain ⟨t1, hlatch2, e1, e2⟩ : ∃ t1, latchOrValidate env.codec t img = some t1
      ∧ t1.qoi2Header = s1.qoi2Header
      ∧ t1.maxCompressedFrameSize = s1.maxCompressedFrameSize := by
    by_cases h0 : s.nextFrameNo = 0
    · have h0t : t.nextFrameNo = 0 := by rw [← hsim.frameNo]; exact h0
      obtain ⟨a1, a2, -⟩ := hz h0
      refine ⟨_, by unfold latchOrValidate; rw [if_pos h0t], ?_, ?_⟩
      · rw [a1]
      · rw [a2]
    · have h0t : ¬ t.nextFrameNo = 0 := by rw [← hsim.frameNo]; exact h0
      obtain ⟨a, hm⟩ := hnz h0
      have hm2 : geometryMismatch img t.qonHeader = false := by
        unfold geometryMismatch at hm ⊢
        rw [← hsim.width, ← hsim.height, ← hsim.channels, ← hsim.colorspace]
        exact hm
      refine ⟨t, by unfold latchOrValidate; rw [if_neg h0t, hm2]; rfl, ?_, ?_⟩
      · rw [a]; exact hsim.desc.symm
      · rw [a]; exact hsim.capacity.symm
  rw [← e1, ← e2] at hkey
  unfold packFrame
  simp only [hload, hlatch2, hkey, hoff, Bool.false_and, Bool.false_eq_true, ↓reduceIte]
  exact ⟨_, rfl⟩

theorem packLoop_off_ok (env : Env) (opt opt2 : PackOptions)
    (hoff : opt2.useInterFrameCompression = false) (paths : List String) (s t s2 : PackState)
    (hsim : PackSim s t) (hs : packLoop env opt s paths = (s2, none)) :
    ∃ t2, packLoop env opt2 t paths = (t2, none) ∧ PackSim s2 t2 := by
  induction paths generalizing s t with
  | nil =>
    simp only [packLoop, Prod.mk.injEq, and_true] at hs
    subst hs
    exact ⟨t, rfl, hsim⟩
  | cons p ps ih =>
    unfold packLoop at hs
    split at hs
    · cases hs
    · rename_i s1 hs1
      obtain ⟨t1, ht1⟩ := packFrame_off_ok hoff hsim hs1
      obtain ⟨t2, ht2, hsim2⟩ := ih s1 t1 (packFrame_sim hoff hsim hs1 ht1) hs
      refine ⟨t2, ?_, hsim2⟩
      simp only [packLoop, ht1]
      exact ht2

/-- The length of the file a successful pack leaves is the sum of its parts. -/
theorem pack_file_length {env : Env} {opt : PackOptions} {junk : qon_desc} {junk2 : qoi2_desc}
    {outfilePath : String} {paths : List String} (hsz : SizesOK env.fmt)
    (h : (pack env opt junk junk2 outfilePath paths).exitStatus = 0) :
    (pack env opt junk junk2 outfilePath paths).state.outfile.data.length
      = env.fmt.QON_BARE_HEADER_SIZE + paths.length * env.fmt.QON_INDEX_SIZE_PER_ENTRY
          + dataSize env.fmt (pack env opt junk junk2 outfilePath paths).state.written := by
  obtain ⟨bs, -, hbl, hil, -, hdata⟩ := pack_file hsz h
  rw [hdata]
  simp [hbl, hil, dataBytes_length env.fmt hsz.2.1]
  omega

/-- The final header of a pack keeps the frame count of the draft. -/
theorem pack_frame_count (env : Env) (opt : PackOptions) (junk : qon_desc) (junk2 : qoi2_desc)
    (outfilePath : String) (paths : List String) :
    (pack env opt junk junk2 outfilePath paths).state.qonHeader.frame_count = paths.length
      ∧ (pack env opt junk junk2 outfilePath paths).state.currentFileOffsetAfterHeader
          = dataSize env.fmt (pack env opt junk junk2 outfilePath paths).state.written := by
  have hinv := packLoop_inv env opt junk junk2 paths.length paths
  unfold pack
  split
  · rename_i s e hloop
    rw [hloop] at hinv
    exact ⟨hinv.count, hinv.offset⟩
  · rename_i s hloop
    rw [hloop] at hinv
    have hc : (finalHeader opt s).frame_count = paths.length := by
      unfold finalHeader
      split
      · exact hinv.count
      · exact hinv.count
    cases hbs : env.fmt.qon_encode_header (finalHeader opt s) <;>
      simp only [hbs] <;> exact ⟨hc, hinv.offset⟩

/-- C3, non-regression of inter-frame compression.  When pack succeeds on a list
of paths with the inter-frame option on, the same list with the option off (the
other options equal) runs through the whole loop as well and writes a record for
every frame, and the size of the container with the option on (header size plus
frame count times index stride plus, for every frame, size field and payload)
is at most the size of the container with the option off; for a format whose
encoders fill their fixed-size buffers, these sizes are the lengths of the
output files of the runs that succeed. -/
theorem pack_interframe_never_larger (env : Env) (opt : PackOptions) (junk : qon_desc)
    (junk2 : qoi2_desc) (outfilePath : String) (paths : List String)
    (hon : (pack env { opt with useInterFrameCompression := true } junk junk2 outfilePath
              paths).exitStatus = 0) :
    containerSize env.fmt
        (pack env { opt with useInterFrameCompression := true } junk junk2 outfilePath paths)
      ≤ containerSize env.fmt
          (pack env { opt with useInterFrameCompression := false } junk junk2 outfilePath paths)
    ∧ (pack env { opt with useInterFrameCompression := false } junk junk2 outfilePath
          paths).state.written.length = paths.length
    ∧ (SizesOK env.fmt →
        (pack env { opt with useInterFrameCompression := true } junk junk2 outfilePath
            paths).state.outfile.data.length
          = containerSize env.fmt
              (pack env { opt with useInterFrameCompression := true } junk junk2 outfilePath
                paths)
        ∧ ((pack env { opt with useInterFrameCompression := false } junk junk2 outfilePath
              paths).exitStatus = 0 →
            (pack env { opt with useInterFrameCompression := false } junk junk2 outfilePath
                paths).state.outfile.data.length
              = containerSize env.fmt
                  (pack env { opt with useInterFrameCompression := false } junk junk2
                    outfilePath paths)
            ∧ (pack env { opt with useInterFrameCompression := true } junk junk2 outfilePath
                paths).state.outfile.data.length
              ≤ (pack env { opt with useInterFrameCompression := false } junk junk2
                  outfilePath paths).state.outfile.data.length)) := by
  obtain ⟨s, bs, hloop, -, hr⟩ := pack_success hon
  obtain ⟨t, hloop2, hsim⟩ := packLoop_off_ok env
    { opt with useInterFrameCompression := true } { opt with useInterFrameCompression := false }
    rfl paths (packInit env.fmt { opt with useInterFrameCompression := true } junk junk2
      paths.length)
    (packInit env.fmt { opt with useInterFrameCompression := false } junk junk2 paths.length) s
    (by constructor <;> simp [packInit]) hloop
  obtain ⟨c1, o1⟩ := pack_frame_count env { opt with useInterFrameCompression := true } junk
    junk2 outfilePath paths
  obtain ⟨c2, o2⟩ := pack_frame_count env { opt with useInterFrameCompression := false } junk
    junk2 outfilePath paths
  obtain ⟨w1, -, f1⟩ := pack_written env { opt with useInterFrameCompression := true } junk
    junk2 outfilePath paths
  obtain ⟨w2, -, f2⟩ := pack_written env { opt with useInterFrameCompression := false } junk
    junk2 outfilePath paths
  rw [hloop] at f1
  rw [hloop2] at f2 w2
  simp only at f1 f2 w2
  have hle : containerSize env.fmt
        (pack env { opt with useInterFrameCompression := true } junk junk2 outfilePath paths)
      ≤ containerSize env.fmt
          (pack env { opt with useInterFrameCompression := false } junk junk2 outfilePath
            paths) := by
    unfold containerSize
    rw [c1, c2, ← o1, ← o2, f1, f2]
    have := hsim.size
    omega
  have hlen : (pack env { opt with useInterFrameCompression := false } junk junk2 outfilePath
          paths).state.written.length = paths.length := by
    rw [w2, packLoop_written_length env _ paths _ _ hloop2]
    simp [packInit]
  refine ⟨hle, hlen, fun hsz => ?_⟩
  have l1 := pack_file_length hsz hon
  have e1 : (pack env { opt with useInterFrameCompression := true } junk junk2 outfilePath
            paths).state.outfile.data.length
          = containerSize env.fmt
              (pack env { opt with useInterFrameCompression := true } junk junk2 outfilePath
                paths) := by
    rw [l1]; unfold containerSize; rw [c1]
  refine ⟨e1, fun hoff => ?_⟩
  have l2 := pack_file_length hsz hoff
  have e2 : (pack env { opt with useInterFrameCompression := false } junk junk2 outfilePath
            paths).state.outfile.data.length
          = containerSize env.fmt
              (pack env { opt with useInterFrameCompression := false } junk junk2 outfilePath
                paths) := by
    rw [l2]; unfold containerSize; rw [c2]
  exact ⟨e2, by rw [e1, e2]; exact hle⟩

/-- Witness for C3: the concrete run takes 31 bytes with inter-frame compression
and 34 bytes without. -/
theorem pack_interframe_never_larger_witness :
    demoPack.exitStatus = 0 ∧ demoPackKey.exitStatus = 0
      ∧ containerSize demoFormat demoPack = 31 ∧ containerSize demoFormat demoPackKey = 34
      ∧ containerSize demoFormat demoPack ≤ containerSize demoFormat demoPackKey :=
  ⟨by decide, by decide, by decide, by decide,
    (pack_interframe_never_larger demoEnv demoOptions demoJunk demoJunk2 "out.qon" demoPaths
      (by decide)).1⟩

/-! ### The frame index (C4, C5) and the header (C6) -/

theorem dataSize_app (fmt : QonFormat) (xs ys : List FrameWrite) :
    dataSize fmt (xs ++ ys) = dataSize fmt xs + dataSize fmt ys := by
  induction xs with
  | nil => simp [dataSize]
  | cons a xs ih => simp [dataSize, ih]; omega

theorem dataBytes_app (fmt : QonFormat) (xs ys : List FrameWrite) :
    dataBytes fmt (xs ++ ys) = dataBytes fmt xs ++ dataBytes fmt ys := by
  induction xs with
  | nil => simp [dataBytes]
  | cons a xs ih => simp [dataBytes, ih]

theorem split_at_frame {α : Type} (ws : List α) (i : Nat) (w : α) (h : ws[i]? = some w) :
    ws = ws.take i ++ w :: ws.drop (i + 1) := by
  induction ws generalizing i with
  | nil => simp at h
  | cons a ws ih =>
    cases i with
    | zero =>
      simp at h
      simp [h]
    | succ k =>
      simp only [List.getElem?_cons_succ] at h
      simp only [List.take_succ_cons, List.drop_succ_cons, List.cons_append]
      rw [← ih k h]

theorem drop_take_middle {α : Type} (xs rec ys : List α) (n m : Nat) (hn : xs.length = n)
    (hm : rec.length = m) : ((xs ++ rec ++ ys).drop n).take m = rec := by
  subst hn hm
  simp

/-- In the file of a successful pack, at the offset stored for a frame, counted
from the first byte after the index, stand the size field of the frame and
then its payload. -/
theorem pack_record_at (env : Env) (opt : PackOptions) (junk : qon_desc) (junk2 : qoi2_desc)
    (outfilePath : String) (paths : List String) (hsz : SizesOK env.fmt)
    (hok : (pack env opt junk junk2 outfilePath paths).exitStatus = 0) (i : Nat) (w : FrameWrite)
    (hiw : (pack env opt junk junk2 outfilePath paths).state.written[i]? = some w) :
    ((pack env opt junk junk2 outfilePath paths).state.outfile.data.drop
        (env.fmt.QON_BARE_HEADER_SIZE + paths.length * env.fmt.QON_INDEX_SIZE_PER_ENTRY
          + w.offset)).take (env.fmt.QON_FRAME_SIZE_SIZE + w.payload.length)
      = env.fmt.qon_encode_frame_size w.payload.length ++ w.payload := by
  obtain ⟨bs, -, hbl, hil, hwl, hdata⟩ := pack_file hsz hok
  obtain ⟨hw, hix, -⟩ := pack_written env opt junk junk2 outfilePath paths
  have hinv := packLoop_inv env opt junk junk2 paths.length paths
  have hoff : w.offset
      = dataSize env.fmt ((pack env opt junk junk2 outfilePath paths).state.written.take i) := by
    have h := hinv.offsets i w (by rw [← hw]; exact hiw)
    rw [← hw] at h
    exact h
  have e := split_at_frame (pack env opt junk junk2 outfilePath paths).state.written i w hiw
  rw [hdata]
  conv_lhs => rw [e]
  rw [dataBytes_app]
  simp only [dataBytes]
  have hl : (bs ++ (pack env opt junk junk2 outfilePath paths).state.frameIndexBuffer
        ++ dataBytes env.fmt
            ((pack env opt junk junk2 outfilePath paths).state.written.take i)).length
      = env.fmt.QON_BARE_HEADER_SIZE + paths.length * env.fmt.QON_INDEX_SIZE_PER_ENTRY
          + w.offset := by
    rw [hoff]
    simp [hbl, hil, dataBytes_length env.fmt hsz.2.1]
    omega
  have hrl : (recordBytes env.fmt w).length
      = env.fmt.QON_FRAME_SIZE_SIZE + w.payload.length := by
    simp [recordBytes, hsz.2.1]
  have := drop_take_middle _ (recordBytes env.fmt w)
    (dataBytes env.fmt
      ((pack env opt junk junk2 outfilePath paths).state.written.drop (i + 1))) _ _ hl hrl
  simp only [List.append_assoc] at this ⊢
  rw [this]
  rfl

theorem demoFormat_sizes : SizesOK demoFormat := by
  refine ⟨by decide, fun n => rfl, fun buf i off fl => ?_, fun h bs hbs => ?_⟩
  · simp [demoFormat]
  · simp only [demoFormat] at hbs ⊢
    split at hbs
    · cases hbs
    · cases hbs; rfl

/-- C4, monotonic and exact index.  In the container a successful pack writes
(for a format whose encoders fill their fixed-size buffers): there is one frame
record for each path; the index region of the file is the index buffer in which
the entry of every frame `i` was stored with that frame's offset and flags; the
offset stored for frame 0 is 0; the offset stored for frame `i + 1` is the
offset of frame `i` plus the width of the size field plus the payload length of
frame `i`, hence larger; at each stored offset, counted from the first byte
after the index, the file holds the size field of that frame (declaring the
payload length) followed by the payload; and offset plus size field plus
declared length stays within the frame-data region. -/
theorem pack_index_exact (env : Env) (opt : PackOptions) (junk : qon_desc) (junk2 : qoi2_desc)
    (outfilePath : String) (paths : List String) (r : PackResult)
    (hr : pack env opt junk junk2 outfilePath paths = r) (hsz : SizesOK env.fmt)
    (hok : r.exitStatus = 0) :
    r.state.written.length = paths.length
    ∧ (r.state.outfile.data.drop env.fmt.QON_BARE_HEADER_SIZE).take
          (paths.length * env.fmt.QON_INDEX_SIZE_PER_ENTRY)
        = indexImage env.fmt
            (List.replicate (paths.length * env.fmt.QON_INDEX_SIZE_PER_ENTRY) 0) 0
            r.state.written
    ∧ (∀ (w : FrameWrite), r.state.written[0]? = some w → w.offset = 0)
    ∧ (∀ (i : Nat) (w w2 : FrameWrite), r.state.written[i]? = some w → r.state.written[i + 1]? = some w2 →
          w2.offset = w.offset + env.fmt.QON_FRAME_SIZE_SIZE + w.payload.length
          ∧ w.offset < w2.offset)
    ∧ (∀ (i : Nat) (w : FrameWrite), r.state.written[i]? = some w →
          (r.state.outfile.data.drop
              (env.fmt.QON_BARE_HEADER_SIZE + paths.length * env.fmt.QON_INDEX_SIZE_PER_ENTRY
                + w.offset)).take (env.fmt.QON_FRAME_SIZE_SIZE + w.payload.length)
            = env.fmt.qon_encode_frame_size w.payload.length ++ w.payload)
    ∧ (∀ (i : Nat) (w : FrameWrite), r.state.written[i]? = some w →
          w.offset + env.fmt.QON_FRAME_SIZE_SIZE + w.payload.length
            ≤ r.state.outfile.data.length
                - (env.fmt.QON_BARE_HEADER_SIZE
                    + paths.length * env.fmt.QON_INDEX_SIZE_PER_ENTRY)) := by
  subst hr
  obtain ⟨bs, -, hbl, hil, hwl, hdata⟩ := pack_file hsz hok
  obtain ⟨hw, hix, -⟩ := pack_written env opt junk junk2 outfilePath paths
  have hinv := packLoop_inv env opt junk junk2 paths.length paths
  have hflen := pack_file_length hsz hok
  have hoffs : ∀ (i : Nat) (w : FrameWrite), (pack env opt junk junk2 outfilePath paths).state.written[i]? = some w →
      w.offset
        = dataSize env.fmt ((pack env opt junk junk2 outfilePath paths).state.written.take i) := by
    rw [hw]; exact hinv.offsets
  have hsplit : ∀ (i : Nat) (w : FrameWrite), (pack env opt junk junk2 outfilePath paths).state.written[i]? = some w →
      dataSize env.fmt (pack env opt junk junk2 outfilePath paths).state.written
        = w.offset + recordSize env.fmt w
          + dataSize env.fmt
              ((pack env opt junk junk2 outfilePath paths).state.written.drop (i + 1)) := by
    intro i w hiw
    have e := split_at_frame (pack env opt junk junk2 outfilePath paths).state.written i w hiw
    rw [hoffs i w hiw]
    conv_lhs => rw [e]
    rw [dataSize_app]
    simp only [dataSize]
    omega
  refine ⟨hwl, ?_, ?_, ?_, ?_, ?_⟩
  · have hidx : (pack env opt junk junk2 outfilePath paths).state.frameIndexBuffer
        = indexImage env.fmt
            (List.replicate (paths.length * env.fmt.QON_INDEX_SIZE_PER_ENTRY) 0) 0
            (pack env opt junk junk2 outfilePath paths).state.written := by
      rw [hix, hw]; exact hinv.index
    rw [hdata, ← hidx]
    exact drop_take_middle bs _ _ _ _ hbl hil
  · intro w h0
    rw [hoffs 0 w h0]
    simp [dataSize]
  · intro i w w2 hi hi2
    have e : (pack env opt junk junk2 outfilePath paths).state.written.take (i + 1)
        = (pack env opt junk junk2 outfilePath paths).state.written.take i ++ [w] := by
      rw [List.take_succ, hi]
      rfl
    rw [hoffs (i + 1) w2 hi2, e, dataSize_append, ← hoffs i w hi]
    have := hsz.1
    simp only [recordSize]
    omega
  · intro i w hiw
    exact pack_record_at env opt junk junk2 outfilePath paths hsz hok i w hiw
  · intro i w hiw
    rw [hflen, hsplit i w hiw]
    simp only [recordSize]
    omega

/-- Witness for C4: the concrete format fills its buffers and the concrete run
succeeds; its three records start at offsets 0, 6 and 9. -/
theorem pack_index_exact_witness :
    SizesOK demoFormat ∧ demoPack.exitStatus = 0
      ∧ demoPack.state.written.map (fun w => w.offset) = [0, 6, 9]
      ∧ (∀ (i : Nat) (w w2 : FrameWrite),
          demoPack.state.written[i]? = some w → demoPack.state.written[i + 1]? = some w2 →
          w2.offset = w.offset + 2 + w.payload.length ∧ w.offset < w2.offset) := by
  have hsz : SizesOK demoEnv.fmt := demoFormat_sizes
  exact ⟨hsz, by decide, by decide,
    (pack_index_exact demoEnv demoOptions demoJunk demoJunk2 "out.qon" demoPaths demoPack rfl
      hsz (by decide)).2.2.2.1⟩

theorem flag_test (f : Nat) (h : f = 0 ∨ f = QON_FRAME_FLAGS_INTERFRAME_COMPRESSION) :
    (f &&& QON_FRAME_FLAGS_INTERFRAME_COMPRESSION ≠ 0 ↔ f ≠ 0) := by
  rcases h with h | h <;> subst h <;> decide

/-- C5, dependency integrity of pack output.  Whatever the paths and options and
however the run ends, among the index entries pack stored (the index buffer
holds exactly the entries of the frames written): the entry of frame 0 has the
inter-frame flag clear; an entry with the flag set belongs to a frame `i ≥ 1`,
was stored with the inter-frame option on, and the record of frame `i - 1` was
written before it in the same run; with the option off no entry has the flag
set. -/
theorem pack_dependency_integrity (env : Env) (opt : PackOptions) (junk : qon_desc)
    (junk2 : qoi2_desc) (outfilePath : String) (paths : List String) :
    (pack env opt junk junk2 outfilePath paths).state.frameIndexBuffer
        = indexImage env.fmt
            (List.replicate (paths.length * env.fmt.QON_INDEX_SIZE_PER_ENTRY) 0) 0
            (pack env opt junk junk2 outfilePath paths).state.written
    ∧ (∀ (w : FrameWrite), (pack env opt junk junk2 outfilePath paths).state.written[0]? = some w →
          w.flags &&& QON_FRAME_FLAGS_INTERFRAME_COMPRESSION = 0)
    ∧ (∀ (i : Nat) (w : FrameWrite),
          (pack env opt junk junk2 outfilePath paths).state.written[i]? = some w →
          w.flags &&& QON_FRAME_FLAGS_INTERFRAME_COMPRESSION ≠ 0 →
          1 ≤ i ∧ opt.useInterFrameCompression = true
            ∧ ∃ w0, (pack env opt junk junk2 outfilePath paths).state.written[i - 1]? = some w0)
    ∧ (opt.useInterFrameCompression = false →
          ∀ w ∈ (pack env opt junk junk2 outfilePath paths).state.written,
            w.flags &&& QON_FRAME_FLAGS_INTERFRAME_COMPRESSION = 0) := by
  obtain ⟨hw, hix, -⟩ := pack_written env opt junk junk2 outfilePath paths
  have hinv := packLoop_inv env opt junk junk2 paths.length paths
  rw [hw, hix]
  have hfl : ∀ (i : Nat) (w : FrameWrite),
      (packLoop env opt (packInit env.fmt opt junk junk2 paths.length) paths).1.written[i]?
        = some w →
      w.flags &&& QON_FRAME_FLAGS_INTERFRAME_COMPRESSION ≠ 0 →
      0 < i ∧ opt.useInterFrameCompression = true := by
    intro i w hiw hne
    rcases hinv.flags i w hiw with h0 | ⟨-, hi, hu⟩
    · rw [h0] at hne; exact absurd rfl hne
    · exact ⟨hi, hu⟩
  refine ⟨hinv.index, ?_, ?_, ?_⟩
  · intro w h0
    by_contra hne
    have := (hfl 0 w h0 hne).1
    omega
  · intro i w hiw hne
    obtain ⟨hi, hu⟩ := hfl i w hiw hne
    refine ⟨hi, hu, ?_⟩
    have hlt : i < (packLoop env opt (packInit env.fmt opt junk junk2 paths.length)
        paths).1.written.length := by
      by_contra hge
      rw [List.getElem?_eq_none (by omega)] at hiw
      cases hiw
    exact ⟨_, List.getElem?_eq_getElem (by omega)⟩
  · intro hu w hmem
    obtain ⟨i, hi⟩ := List.getElem?_of_mem hmem
    by_contra hne
    have := (hfl i w hi hne).2
    rw [hu] at this
    cases this

theorem ofstream.write_at_zero (f : ofstream) (bs : List Byte) :
    ((f.seekp 0).write bs).data.take bs.length = bs := by
  cases bs with
  | nil => simp
  | cons b bs => simp [ofstream.write, ofstream.seekp]

/-- C6, container flags written by pack.  In the header a successful pack
encodes and writes at the start of the file: the "uses inter-frame compression"
bit is set exactly when the index entry of some frame has the inter-frame flag
set; the "loop" bit is set exactly when the loop option was given; the frame
count is the number of paths of the list file; the frame duration is the
duration option. -/
theorem pack_header_fields (env : Env) (opt : PackOptions) (junk : qon_desc)
    (junk2 : qoi2_desc) (outfilePath : String) (paths : List String) (r : PackResult)
    (hr : pack env opt junk junk2 outfilePath paths = r) (hok : r.exitStatus = 0) :
    (∃ bs, env.fmt.qon_encode_header r.state.qonHeader = some bs
        ∧ r.state.outfile.data.take bs.length = bs)
    ∧ (r.state.qonHeader.flags &&& QON_FLAGS_USES_INTERFRAME_COMPRESSION ≠ 0
        ↔ ∃ w ∈ r.state.written, w.flags &&& QON_FRAME_FLAGS_INTERFRAME_COMPRESSION ≠ 0)
    ∧ (r.state.qonHeader.flags &&& QON_FLAGS_LOOP_ANIMATION ≠ 0 ↔ opt.loopAnimation = true)
    ∧ r.state.qonHeader.frame_count = paths.length
    ∧ r.state.qonHeader.frame_duration_in_microseconds = opt.delay := by
  subst hr
  obtain ⟨s, bs, hloop, hbs, hres⟩ := pack_success hok
  have hinv := packLoop_inv env opt junk junk2 paths.length paths
  rw [hloop] at hinv
  simp only at hinv
  rw [hres]
  simp only
  have hflagsOK : ∀ w ∈ s.written,
      w.flags = 0 ∨ w.flags = QON_FRAME_FLAGS_INTERFRAME_COMPRESSION := by
    intro w hmem
    obtain ⟨i, hi⟩ := List.getElem?_of_mem hmem
    rcases hinv.flags i w hi with h0 | ⟨h1, -⟩
    · exact Or.inl h0
    · exact Or.inr h1
  have hex : (∃ w ∈ s.written, w.flags &&& QON_FRAME_FLAGS_INTERFRAME_COMPRESSION ≠ 0)
      ↔ s.addedInterFrameCompressedData = true := by
    rw [hinv.added]
    constructor
    · rintro ⟨w, hm, hne⟩
      exact ⟨w, hm, (flag_test _ (hflagsOK w hm)).1 hne⟩
    · rintro ⟨w, hm, hne⟩
      exact ⟨w, hm, (flag_test _ (hflagsOK w hm)).2 hne⟩
  have huse : s.addedInterFrameCompressedData = true → opt.useInterFrameCompression = true := by
    intro ha
    obtain ⟨w, hm, hne⟩ := hinv.added.1 ha
    obtain ⟨i, hi⟩ := List.getElem?_of_mem hm
    rcases hinv.flags i w hi with h0 | ⟨-, -, hu⟩
    · exact absurd h0 hne
    · exact hu
  have hfin : (finalHeader opt s).flags
      = (if opt.loopAnimation then QON_FLAGS_LOOP_ANIMATION else 0)
          ||| (if s.addedInterFrameCompressedData then QON_FLAGS_USES_INTERFRAME_COMPRESSION
               else 0) := by
    unfold finalHeader
    by_cases ha : s.addedInterFrameCompressedData = true
    · rw [if_pos ha, if_pos ha]
      simp only [huse ha, if_true, hinv.headerFlags]
    · rw [if_neg ha, if_neg ha, hinv.headerFlags]
      simp
  refine ⟨⟨bs, hbs, ofstream.write_at_zero _ bs⟩, ?_, ?_, ?_, ?_⟩
  · rw [hex, hfin]
    cases opt.loopAnimation <;> cases s.addedInterFrameCompressedData <;> decide
  · rw [hfin]
    cases opt.loopAnimation <;> cases s.addedInterFrameCompressedData <;> decide
  · unfold finalHeader
    split <;> exact hinv.count
  · unfold finalHeader
    split <;> exact hinv.duration

/-- Witness for C6: the header of the concrete run has both bits set, three
frames and a duration of five microseconds. -/
theorem pack_header_fields_witness :
    demoPack.exitStatus = 0
      ∧ demoPack.state.qonHeader.flags = 3
      ∧ (demoPack.state.qonHeader.flags &&& QON_FLAGS_USES_INTERFRAME_COMPRESSION ≠ 0
          ↔ ∃ w ∈ demoPack.state.written,
              w.flags &&& QON_FRAME_FLAGS_INTERFRAME_COMPRESSION ≠ 0)
      ∧ demoPack.state.qonHeader.frame_count = 3 :=
  ⟨by decide, by decide,
    (pack_header_fields demoEnv demoOptions demoJunk demoJunk2 "out.qon" demoPaths demoPack rfl
      (by decide)).2.1, by decide⟩

/-! ### Reference selection of unpack (C7) -/

theorem geometryMismatch_iff (img : Image) (h : qon_desc) :
    geometryMismatch img h = true ↔ img.geometry ≠ h.geometry := by
  unfold geometryMismatch Image.geometry qon_desc.geometry
  simp only [Bool.or_eq_true, decide_eq_true_eq, ne_eq, Prod.mk.injEq, not_and]
  constructor
  · rintro (((h1 | h2) | h3) | h4) a b c
    · exact absurd a h1
    · exact absurd b h2
    · exact absurd c h3
    · exact h4
  · intro hx
    by_cases a : img.w = h.width
    · by_cases b : img.h = h.height
      · by_cases c : img.channels = h.channels
        · exact Or.inr (hx a b c)
        · exact Or.inl (Or.inr c)
      · exact Or.inl (Or.inl (Or.inr b))
    · exact Or.inl (Or.inl (Or.inl a))

theorem packLoop_append (env : Env) (opt : PackOptions) (xs ys : List String) (s : PackState) :
    packLoop env opt s (xs ++ ys)
      = match packLoop env opt s xs with
        | (s1, none) => packLoop env opt s1 ys
        | (s1, some e) => (s1, some e) := by
  induction xs generalizing s with
  | nil => simp [packLoop]
  | cons x xs ih =>
    simp only [List.cons_append, packLoop]
    cases hx : packFrame env opt s x with
    | error e => simp
    | ok s1 => simp only; exact ih s1

theorem Placeholder.write {base : Nat} {f : ofstream} (h : Placeholder base f) (bs : List Byte) :
    Placeholder base (f.write bs) := by
  by_cases hb : bs = []
  · subst hb
    simpa [ofstream.write] using h
  · rcases h with ⟨hd, hp⟩ | ⟨rest, hd, hp⟩
    · right
      rw [ofstream.write_gap _ _ hd hb]
      exact ⟨bs, by simp [hp], by simp [hp]⟩
    · right
      rw [ofstream.write_at_end _ _ hp]
      exact ⟨rest ++ bs, by simp [hd], by simp [hp]⟩

theorem packLoop_placeholder (env : Env) (opt : PackOptions) (junk : qon_desc)
    (junk2 : qoi2_desc) (n : Nat) (paths : List String) :
    Placeholder (env.fmt.QON_BARE_HEADER_SIZE + n * env.fmt.QON_INDEX_SIZE_PER_ENTRY)
      (packLoop env opt (packInit env.fmt opt junk junk2 n) paths).1.outfile := by
  refine packLoop_invariant env opt
    (fun s => Placeholder (env.fmt.QON_BARE_HEADER_SIZE + n * env.fmt.QON_INDEX_SIZE_PER_ENTRY)
      s.outfile) ?_ paths _ ?_
  · intro s p s2 hs hstep
    obtain ⟨_, _, _, payload, _, -, -, -, hout, -⟩ := packFrame_step hstep
    rw [hout]
    exact (hs.write _).write _
  · left
    simp [packInit, ofstream.opened, ofstream.seekp]

theorem latchOrValidate_latched {codec : PixelCodec} {g : Nat × Nat × Nat × Nat}
    {s s1 : PackState} {img : Image} (hg : img.geometry = g) (hs : Latched codec g s)
    (h : latchOrValidate codec s img = some s1) :
    s1.qonHeader.geometry = g ∧ s1.qoi2Header = descOf g
      ∧ s1.maxCompressedFrameSize
          = codec.qoi2_max_encoded_data_size_without_header (descOf g) := by
  obtain ⟨hz, hnz⟩ := latchOrValidate_geometry h
  by_cases h0 : s.nextFrameNo = 0
  · obtain ⟨a1, a2, a3, a4, a5, a6⟩ := hz h0
    subst hg
    refine ⟨?_, ?_, ?_⟩
    · simp [qon_desc.geometry, Image.geometry, a3, a4, a5, a6]
    · rw [a1]; rfl
    · rw [a2]; rfl
  · obtain ⟨e, -⟩ := hnz h0
    rcases hs with hs | hs
    · exact absurd hs h0
    · rw [e]; exact hs

theorem latchOrValidate_uniform {codec : PixelCodec} {g : Nat × Nat × Nat × Nat}
    {s : PackState} {img : Image} (hg : img.geometry = g) (hs : Latched codec g s) :
    ∃ s1, latchOrValidate codec s img = some s1 := by
  unfold latchOrValidate
  split
  · exact ⟨_, rfl⟩
  · rename_i h0
    rcases hs with hs | ⟨hs, -⟩
    · exact absurd hs h0
    · have hm : geometryMismatch img s.qonHeader = false := by
        rw [Bool.eq_false_iff]
        intro hm
        exact (geometryMismatch_iff img s.qonHeader).1 hm (by rw [hg, hs])
      rw [hm]
      exact ⟨_, rfl⟩

theorem packFrame_latched {env : Env} {opt : PackOptions} {g : Nat × Nat × Nat × Nat}
    {s s2 : PackState} {filePath : String} {img : Image}
    (hload : loadImage env filePath = .loaded img) (hg : img.geometry = g)
    (hs : Latched env.codec g s) (h : packFrame env opt s filePath = .ok s2) :
    Latched env.codec g s2 := by
  obtain ⟨img2, s1, _, _, _, hload2, hlatch, -, -, -, -, -, -, -, hqh, hq2, hmax, -⟩ :=
    packFrame_step h
  rw [hload] at hload2
  cases hload2
  obtain ⟨a, b, c⟩ := latchOrValidate_latched hg hs hlatch
  right
  exact ⟨by rw [hqh]; exact a, by rw [hq2]; exact b, by rw [hmax]; exact c⟩

/-- Over frames that all load with the geometry `g`, an iteration can only fail
in the pixel encoder. -/
theorem packFrame_uniform {env : Env} (opt : PackOptions) {g : Nat × Nat × Nat × Nat}
    {s : PackState} {filePath : String} {img : Image}
    (hload : loadImage env filePath = .loaded img) (hg : img.geometry = g)
    (hs : Latched env.codec g s) :
    (∃ s2, packFrame env opt s filePath = .ok s2)
      ∨ (packFrame env opt s filePath = .error (.encode filePath)
          ∧ ∃ reference, env.codec.qoi2_encode_data img.pixels img.channels (descOf g) reference
              (env.codec.qoi2_max_encoded_data_size_without_header (descOf g)) = none) := by
  obtain ⟨s1, hlatch⟩ := latchOrValidate_uniform hg hs
  obtain ⟨-, b, c⟩ := latchOrValidate_latched hg hs hlatch
  unfold packFrame
  simp only [hload, hlatch]
  cases hkey : env.codec.qoi2_encode_data img.pixels img.channels s1.qoi2Header none
      s1.maxCompressedFrameSize with
  | none =>
    right
    refine ⟨rfl, none, ?_⟩
    rw [← c, ← b]; exact hkey
  | some keyFrame =>
    simp only
    split
    · cases hin : env.codec.qoi2_encode_data img.pixels img.channels s1.qoi2Header
          s1.lastFramePixels s1.maxCompressedFrameSize with
      | none =>
        right
        refine ⟨rfl, s1.lastFramePixels, ?_⟩
        rw [← c, ← b]; exact hin
      | some interFrame => left; exact ⟨_, rfl⟩
    · left; exact ⟨_, rfl⟩

theorem packLoop_written_le (env : Env) (opt : PackOptions) (paths : List String)
    (s : PackState) :
    (packLoop env opt s paths).1.written.length ≤ s.written.length + paths.length := by
  induction paths generalizing s with
  | nil => simp [packLoop]
  | cons p ps ih =>
    unfold packLoop
    split
    · simp
    · rename_i s1 hs1
      obtain ⟨_, _, _, _, _, -, -, -, -, -, hw, -⟩ := packFrame_step hs1
      have := ih s1
      rw [hw] at this
      simp at this ⊢
      omega

/-- The pack loop over frames that all load with the geometry `g`: it either
runs to the end, or stops in the pixel encoder at one of the frames. -/
theorem packLoop_uniform (env : Env) (opt : PackOptions) (g : Nat × Nat × Nat × Nat)
    (pre : List String) (s : PackState) (hs : Latched env.codec g s)
    (hall : ∀ p ∈ pre, ∃ img, loadImage env p = .loaded img ∧ img.geometry = g) :
    ((packLoop env opt s pre).2 = none
        ∧ (packLoop env opt s pre).1.nextFrameNo = s.nextFrameNo + pre.length
        ∧ Latched env.codec g (packLoop env opt s pre).1
        ∧ (packLoop env opt s pre).1.written.length = s.written.length + pre.length)
    ∨ (∃ p ∈ pre, (packLoop env opt s pre).2 = some (.encode p)
        ∧ ∃ img reference, loadImage env p = .loaded img
            ∧ env.codec.qoi2_encode_data img.pixels img.channels (descOf g) reference
                (env.codec.qoi2_max_encoded_data_size_without_header (descOf g)) = none) := by
  induction pre generalizing s with
  | nil => left; simp [packLoop, hs]
  | cons p ps ih =>
    obtain ⟨img, hload, hg⟩ := hall p (List.mem_cons_self _ _)
    rcases packFrame_uniform opt hload hg hs with ⟨s2, hok⟩ | ⟨herr, reference, hnone⟩
    · have hl2 := packFrame_latched hload hg hs hok
      obtain ⟨_, _, _, _, _, -, -, -, -, -, hw, -, hno, -⟩ := packFrame_step hok
      have hrec := ih s2 hl2 (fun q hq => hall q (List.mem_cons_of_mem _ hq))
      have e : packLoop env opt s (p :: ps) = packLoop env opt s2 ps := by
        simp [packLoop, hok]
      rw [e]
      rcases hrec with ⟨h1, h2, h3, h4⟩ | ⟨q, hq, h1, h2⟩
      · left
        refine ⟨h1, ?_, h3, ?_⟩
        · rw [h2, hno]; simp; omega
        · rw [h4, hw]; simp; omega
      · right
        exact ⟨q, List.mem_cons_of_mem _ hq, h1, h2⟩
    · right
      have e : packLoop env opt s (p :: ps) = (s, some (.encode p)) := by
        simp [packLoop, herr]
      rw [e]
      exact ⟨p, List.mem_cons_self _ _, rfl, img, reference, hload, hnone⟩

theorem packFrame_mismatch {env : Env} {opt : PackOptions} {s : PackState} {filePath q : String}
    (h : packFrame env opt s filePath = .error (.mismatch q)) :
    ∃ img, loadImage env filePath = .loaded img ∧ latchOrValidate env.codec s img = none := by
  unfold packFrame at h
  split at h
  · cases h
  · cases h
  · rename_i img hload
    split at h
    · rename_i hlatch
      exact ⟨img, hload, hlatch⟩
    · split at h
      · cases h
      · split at h
        · split at h
          · cases h
          · cases h
        · cases h

theorem packLoop_no_mismatch (env : Env) (opt : PackOptions) (g : Nat × Nat × Nat × Nat)
    (paths : List String) (s : PackState) (hs : Latched env.codec g s)
    (hsame : ∀ p ∈ paths, ∀ img, loadImage env p = .loaded img → img.geometry = g) (q : String) :
    (packLoop env opt s paths).2 ≠ some (.mismatch q) := by
  induction paths generalizing s with
  | nil => simp [packLoop]
  | cons p ps ih =>
    unfold packLoop
    split
    · rename_i e he
      intro hq
      simp only [Option.some.injEq] at hq
      subst hq
      obtain ⟨img, hload, hnone⟩ := packFrame_mismatch he
      obtain ⟨s1, hsome⟩ := latchOrValidate_uniform (hsame p (List.mem_cons_self _ _) img hload) hs
      rw [hnone] at hsome
      cases hsome
    · rename_i s1 hok
      obtain ⟨img, _, _, _, _, hload, -⟩ := packFrame_step hok
      exact ih s1 (packFrame_latched hload (hsame p (List.mem_cons_self _ _) img hload) hs hok)
        (fun r hr => hsame r (List.mem_cons_of_mem _ hr))

theorem pack_of_loop_error {env : Env} {opt : PackOptions} {junk : qon_desc}
    {junk2 : qoi2_desc} {outfilePath : String} {paths : List String} {s : PackState}
    {e : PackError}
    (h : packLoop env opt (packInit env.fmt opt junk junk2 paths.length) paths = (s, some e)) :
    pack env opt junk junk2 outfilePath paths = { exitStatus := 1, error := some e, state := s } := by
  unfold pack
  simp [h]

theorem packInit_latched (codec : PixelCodec) (g : Nat × Nat × Nat × Nat) (fmt : QonFormat)
    (opt : PackOptions) (junk : qon_desc) (junk2 : qoi2_desc) (n : Nat) :
    Latched codec g (packInit fmt opt junk junk2 n) := by
  left; rfl

/-- C8 as the code has it.  First part: when the frames before some frame all
load with the geometry `g` of frame 0 and that frame loads with another
geometry, pack exits with status 1; when the pixel encoder accepts the frames
before it, the error is the mismatch error naming the file of that frame, and
otherwise the run has stopped at an earlier frame with the encode error naming
that earlier file; no record of the mismatching frame or a later one is
written; the header and the index are not written: the file is empty or begins
with the zero bytes of the placeholder.  Second part: when every frame that
loads has the geometry of frame 0, no mismatch error is raised. -/
theorem pack_geometry_homogeneity (env : Env) (opt : PackOptions) (junk : qon_desc)
    (junk2 : qoi2_desc) (outfilePath : String) (g : Nat × Nat × Nat × Nat) :
    (∀ (first bad : String) (pre post : List String) (imgBad : Image) (r : PackResult),
        (∀ p ∈ first :: pre, ∃ img, loadImage env p = .loaded img ∧ img.geometry = g) →
        loadImage env bad = .loaded imgBad → imgBad.geometry ≠ g →
        pack env opt junk junk2 outfilePath (first :: pre ++ bad :: post) = r →
        r.exitStatus = 1
        ∧ (r.error = some (.mismatch bad) ∨ ∃ p ∈ first :: pre, r.error = some (.encode p))
        ∧ r.state.written.length ≤ (first :: pre).length
        ∧ Placeholder
            (env.fmt.QON_BARE_HEADER_SIZE
              + (first :: pre ++ bad :: post).length * env.fmt.QON_INDEX_SIZE_PER_ENTRY)
            r.state.outfile
        ∧ ((∀ p ∈ first :: pre, ∀ img, loadImage env p = .loaded img → ∀ reference,
              env.codec.qoi2_encode_data img.pixels img.channels (descOf g) reference
                (env.codec.qoi2_max_encoded_data_size_without_header (descOf g)) ≠ none) →
            r.error = some (.mismatch bad) ∧ r.state.written.length = (first :: pre).length))
    ∧ (∀ (paths : List String),
        (∀ p ∈ paths, ∀ img, loadImage env p = .loaded img → img.geometry = g) →
        ∀ q, (pack env opt junk junk2 outfilePath paths).error ≠ some (.mismatch q)) := by
  constructor
  · intro first bad pre post imgBad r hall hbad hdiff hr
    subst hr
    have hph := packLoop_placeholder env opt junk junk2 (first :: pre ++ bad :: post).length
      (first :: pre ++ bad :: post)
    have happ := packLoop_append env opt (first :: pre) (bad :: post)
      (packInit env.fmt opt junk junk2 (first :: pre ++ bad :: post).length)
    have e0 : first :: pre ++ bad :: post = (first :: pre) ++ bad :: post := rfl
    rcases packLoop_uniform env opt g (first :: pre)
        (packInit env.fmt opt junk junk2 (first :: pre ++ bad :: post).length)
        (packInit_latched _ _ _ _ _ _ _) hall with ⟨h1, h2, h3, h4⟩ | ⟨p, hp, h1, img, reference, hload, hnone⟩
    · -- the loop reaches the mismatching frame
      obtain ⟨s1, hs1⟩ : ∃ s1, packLoop env opt
          (packInit env.fmt opt junk junk2 (first :: pre ++ bad :: post).length) (first :: pre)
          = (s1, none) := ⟨_, Prod.ext rfl h1⟩
      rw [hs1] at happ h2 h3 h4
      simp only at happ h2 h3 h4
      have hne : s1.nextFrameNo ≠ 0 := by
        rw [h2]; simp
      have hlatch : latchOrValidate env.codec s1 imgBad = none := by
        rcases h3 with h3 | ⟨h3, -⟩
        · exact absurd h3 hne
        · unfold latchOrValidate
          rw [if_neg hne]
          have hm : geometryMismatch imgBad s1.qonHeader = true := by
            rw [geometryMismatch_iff, h3]; exact hdiff
          rw [if_pos hm]
      have hbadstep : packFrame env opt s1 bad = .error (.mismatch bad) := by
        unfold packFrame
        simp only [hbad, hlatch]
      have hloop : packLoop env opt
          (packInit env.fmt opt junk junk2 (first :: pre ++ bad :: post).length)
          (first :: pre ++ bad :: post) = (s1, some (.mismatch bad)) := by
        rw [e0, happ]
        simp [packLoop, hbadstep]
      rw [hloop] at hph
      rw [pack_of_loop_error hloop]
      refine ⟨rfl, Or.inl rfl, ?_, hph, fun _ => ⟨rfl, ?_⟩⟩
      · simp only; rw [h4]; simp [packInit]
      · simp only; rw [h4]; simp [packInit]
    · -- the pixel encoder rejected an earlier frame
      obtain ⟨s1, hs1⟩ : ∃ s1, packLoop env opt
          (packInit env.fmt opt junk junk2 (first :: pre ++ bad :: post).length) (first :: pre)
          = (s1, some (.encode p)) := ⟨_, Prod.ext rfl h1⟩
      have hle := packLoop_written_le env opt (first :: pre)
        (packInit env.fmt opt junk junk2 (first :: pre ++ bad :: post).length)
      rw [hs1] at happ hle
      simp only at happ hle
      have hloop : packLoop env opt
          (packInit env.fmt opt junk junk2 (first :: pre ++ bad :: post).length)
          (first :: pre ++ bad :: post) = (s1, some (.encode p)) := by
        rw [e0, happ]
      rw [hloop] at hph
      rw [pack_of_loop_error hloop]
      refine ⟨rfl, Or.inr ⟨p, hp, rfl⟩, ?_, hph, fun henc => ?_⟩
      · simpa [packInit] using hle
      · exact absurd hnone (henc p hp img hload reference)
  · intro paths hsame q
    have hno := packLoop_no_mismatch env opt g paths
      (packInit env.fmt opt junk junk2 paths.length) (packInit_latched _ _ _ _ _ _ _) hsame q
    unfold pack
    split
    · rename_i s e hloop
      rw [hloop] at hno
      exact hno
    · rename_i s hloop
      cases hbs : env.fmt.qon_encode_header (finalHeader opt s) <;> simp [hbs]

/-- Counterexample to C8 as stated: both files load, the second differs from the
first in width, yet the error pack prints names the first file, which the pixel
encoder refused, not the mismatching second one. -/
theorem pack_geometry_counterexample :
    loadImage budgetEnv "wide.qoi"
        = .loaded { pixels := [1, 2, 3, 4, 5, 6], w := 2, h := 1, channels := 3, colorSpace := 0 }
      ∧ loadImage budgetEnv "red.qoi"
          = .loaded { pixels := [255, 0, 0], w := 1, h := 1, channels := 3, colorSpace := 0 }
      ∧ (pack budgetEnv demoOptions demoJunk demoJunk2 "out.qon" ["wide.qoi", "red.qoi"]).exitStatus
          = 1
      ∧ (pack budgetEnv demoOptions demoJunk demoJunk2 "out.qon" ["wide.qoi", "red.qoi"]).error
          = some (.encode "wide.qoi")
      ∧ (pack budgetEnv demoOptions demoJunk demoJunk2 "out.qon" ["wide.qoi", "red.qoi"]).error
          ≠ some (.mismatch "red.qoi") := by
  refine ⟨by decide, by decide, by decide, by decide, by decide⟩

/-- Witness for the corrected C8: in the concrete instance the list `red, wide, blue` stops at
`wide.qoi` with the mismatch error after one record, and the list
`red, red2, blue` raises no mismatch error. -/
theorem pack_geometry_homogeneity_witness :
    (pack demoEnv demoOptions demoJunk demoJunk2 "out.qon"
        ["red.qoi", "wide.qoi", "blue.qoi"]).error = some (.mismatch "wide.qoi")
      ∧ (pack demoEnv demoOptions demoJunk demoJunk2 "out.qon"
          ["red.qoi", "wide.qoi", "blue.qoi"]).state.written.length = 1
      ∧ (pack demoEnv demoOptions demoJunk demoJunk2 "out.qon" demoPaths).error
          ≠ some (.mismatch "blue.qoi") := by
  have h := pack_geometry_homogeneity demoEnv demoOptions demoJunk demoJunk2 "out.qon" (1, 1, 3, 0)
  have h1 := h.1 "red.qoi" "wide.qoi" [] ["blue.qoi"]
    { pixels := [1, 2, 3, 4, 5, 6], w := 2, h := 1, channels := 3, colorSpace := 0 } _
    (by
      intro p hp
      simp only [List.mem_singleton] at hp
      subst hp
      exact ⟨{ pixels := [255, 0, 0], w := 1, h := 1, channels := 3, colorSpace := 0 },
        by decide, by decide⟩)
    (by decide) (by decide) rfl
  have h2 := h1.2.2.2.2 (by
    intro p hp img hload reference
    simp only [List.mem_singleton] at hp
    subst hp
    have e : img = { pixels := [255, 0, 0], w := 1, h := 1, channels := 3, colorSpace := 0 } := by
      have : loadImage demoEnv "red.qoi"
          = .loaded { pixels := [255, 0, 0], w := 1, h := 1, channels := 3, colorSpace := 0 } := by
        decide
      rw [this] at hload
      cases hload
      rfl
    subst e
    simp only [demoEnv, demoCodec]
    split <;> simp [descOf])
  refine ⟨h2.1, h2.2, ?_⟩
  apply h.2 demoPaths
  intro p hp img hload
  simp only [demoPaths, List.mem_cons, List.mem_singleton, List.not_mem_nil, or_false] at hp
  rcases hp with rfl | rfl | rfl
  · have : loadImage demoEnv "red.qoi"
          = .loaded { pixels := [255, 0, 0], w := 1, h := 1, channels := 3, colorSpace := 0 } := by
      decide
    rw [this] at hload; cases hload; rfl
  · have : loadImage demoEnv "red2.qoi"
          = .loaded { pixels := [255, 0, 0], w := 1, h := 1, channels := 3, colorSpace := 0 } := by
      decide
    rw [this] at hload; cases hload; rfl
  · have : loadImage demoEnv "blue.qoi"
          = .loaded { pixels := [0, 0, 255], w := 1, h := 1, channels := 3, colorSpace := 0 } := by
      decide
    rw [this] at hload; cases hload; rfl

/-! ### Truncated containers (C9) -/

theorem unpackFrame_stack_irrelevant (env : Env) (unpackFormat infilePath outfilePath : String)
    (qonHeader : qon_desc) (qoi2Header : qoi2_desc) (frameIndexBuffer : List Byte)
    (frameDataFileOffset : Nat) (junk junk2 : List Byte) (s : UnpackState) (frameIndex : Nat)
    (hfail : s.infile.fail = false)
    (hroom : frameDataFileOffset + (env.fmt.qon_decode_index_entry frameIndexBuffer frameIndex).1
        + env.fmt.QON_FRAME_SIZE_SIZE ≤ s.infile.data.length) :
    unpackFrame env unpackFormat infilePath outfilePath qonHeader qoi2Header frameIndexBuffer
        frameDataFileOffset junk s frameIndex
      = unpackFrame env unpackFormat infilePath outfilePath qonHeader qoi2Header
          frameIndexBuffer frameDataFileOffset junk2 s frameIndex := by
  have hread : ∀ buf : List Byte,
      (s.infile.seekg (frameDataFileOffset
          + (env.fmt.qon_decode_index_entry frameIndexBuffer frameIndex).1)).read
        env.fmt.QON_FRAME_SIZE_SIZE buf
      = ((s.infile.data.drop (frameDataFileOffset
            + (env.fmt.qon_decode_index_entry frameIndexBuffer frameIndex).1)).take
          env.fmt.QON_FRAME_SIZE_SIZE,
         { s.infile with
           pos := frameDataFileOffset
              + (env.fmt.qon_decode_index_entry frameIndexBuffer frameIndex).1
              + env.fmt.QON_FRAME_SIZE_SIZE }) := by
    intro buf
    rw [ifstream.read_ok _ _ buf _ (by simp [ifstream.seekg, hfail]) rfl
      (by simp only [ifstream.seekg, hfail, Bool.false_eq_true, if_false, List.length_take,
            List.length_drop]
          omega)]
    simp [ifstream.seekg, hfail]
  unfold unpackFrame
  simp only [hread]

/-- When every size field is read in full, the content of the uninitialised size
buffer plays no role in the unpack loop. -/
theorem unpackLoop_stack_irrelevant (env : Env) (unpackFormat infilePath outfilePath : String)
    (qonHeader : qon_desc) (qoi2Header : qoi2_desc) (frameIndexBuffer : List Byte)
    (frameDataFileOffset : Nat) (junk junk2 : Nat → List Byte) (n i : Nat) (s : UnpackState)
    (h : sizeFieldsRead env unpackFormat infilePath outfilePath qonHeader qoi2Header
          frameIndexBuffer frameDataFileOffset junk2 n i s = true) :
    unpackLoop env unpackFormat infilePath outfilePath qonHeader qoi2Header frameIndexBuffer
        frameDataFileOffset junk n i s
      = unpackLoop env unpackFormat infilePath outfilePath qonHeader qoi2Header
          frameIndexBuffer frameDataFileOffset junk2 n i s := by
  induction n generalizing i s with
  | zero => rfl
  | succ n ih =>
    simp only [sizeFieldsRead, Bool.and_eq_true, Bool.not_eq_true', decide_eq_true_eq] at h
    obtain ⟨⟨hfail, hroom⟩, hrest⟩ := h
    have e := unpackFrame_stack_irrelevant env unpackFormat infilePath outfilePath qonHeader
      qoi2Header frameIndexBuffer frameDataFileOffset (junk i) (junk2 i) s i hfail hroom
    simp only [unpackLoop, e]
    cases hstep : unpackFrame env unpackFormat infilePath outfilePath qonHeader qoi2Header
        frameIndexBuffer frameDataFileOffset (junk2 i) s i with
    | error err => rfl
    | ok s1 =>
      rw [hstep] at hrest
      exact ih (i + 1) s1 hrest

/-- When every size field is read in full, the content of the uninitialised size
buffer plays no role in the result of unpack. -/
theorem unpack_stack_irrelevant (env : Env) (unpackFormat infilePath outfilePath : String)
    (junk junk2 : Nat → List Byte) (content : List Byte)
    (h : unpackSizeFieldsRead env unpackFormat infilePath outfilePath junk2 content = true) :
    unpack env unpackFormat infilePath outfilePath junk content
      = unpack env unpackFormat infilePath outfilePath junk2 content := by
  unfold unpackSizeFieldsRead at h
  unfold unpack
  cases hd : env.fmt.qon_decode_header
      ((ifstream.opened content).read env.fmt.QON_BARE_HEADER_SIZE
        (List.replicate env.fmt.QON_BARE_HEADER_SIZE 0)).1 with
  | none => simp only [hd]
  | some qonHeader =>
    simp only [hd] at h ⊢
    rw [unpackLoop_stack_irrelevant env unpackFormat infilePath outfilePath _ _ _ _ junk junk2
      _ _ _ h]

/-- C9, evaluated on truncated containers.  The claim asks for a fatal read error
with exit status 1 and for no frame decoded from bytes that were not read; the
unpack branch tests none of its reads and does neither.
(1) `demoCutRecord` is the packed file of the concrete run without its last two
bytes, so the record of frame 2 declares four payload bytes and holds two:
whatever the stack held, unpack reports no error, exits with status 0 and emits
frame 2 as `[0, 0, 0]`, decoded from the two bytes read and two bytes of the
zero-filled buffer, where the source raster is `[0, 0, 255]`.
(2) `demoTruncated` has a header that decodes with frame count 5 and three of
the fifteen index bytes: with `[0, 3]` in the size buffer unpack exits with
status 0 after emitting five frames, none of whose bytes came from the file;
with `[0, 0]` there the pixel decoder rejects frame 0, the message names frame
0, nothing is emitted, and the exit status is 0 as well. -/
theorem unpack_truncated_run :
    demoCutRecord = demoPack.state.outfile.data.take 29
      ∧ demoPack.state.outfile.data.length = 31
      ∧ (∀ stackJunk : Nat → List Byte,
          unpack demoEnv ".qoi" "in.qon" "out/" stackJunk demoCutRecord
            = { exitStatus := 0, error := none,
                emitted := [("out/00000000.qoi", [255, 0, 0]), ("out/00000001.qoi", [255, 0, 0]),
                            ("out/00000002.qoi", [0, 0, 0])] })
      ∧ demoFormat.qon_decode_header (demoTruncated.take 7)
          = some { width := 1, height := 1, channels := 3, colorspace := 0, frame_count := 5,
                   flags := 0, frame_duration_in_microseconds := 0 }
      ∧ demoTruncated.length < 7 + 5 * 3
      ∧ unpack demoEnv ".qoi" "in.qon" "out/" demoStackJunk demoTruncated
          = { exitStatus := 0, error := none,
              emitted := [("out/00000000.qoi", [0, 0]), ("out/00000001.qoi", [0, 0]),
                          ("out/00000002.qoi", [0, 0]), ("out/00000003.qoi", [0, 0]),
                          ("out/00000004.qoi", [0, 0])] }
      ∧ unpack demoEnv ".qoi" "in.qon" "out/" (fun _ => [0, 0]) demoTruncated
          = { exitStatus := 0, error := some (.decodeFrame 0 "in.qon"), emitted := [] } := by
  refine ⟨by decide, by decide, fun stackJunk => ?_, by decide, by decide, by decide, by decide⟩
  rw [unpack_stack_irrelevant demoEnv ".qoi" "in.qon" "out/" stackJunk demoStackJunk
    demoCutRecord (by decide)]
  decide

/-! ### Command line (C10) -/

theorem stoi_digits (ds : List Char) (hne : ds ≠ []) (hd : ∀ c ∈ ds, isDigitC c = true)
    (hv : decimalValue ds ≤ 2147483647) : stoi (String.mk ds) = some (decimalValue ds : Int) := by
  cases ds with
  | nil => exact absurd rfl hne
  | cons c r =>
    have hc := hd c (List.mem_cons_self _ _)
    have hc2 : 48 ≤ c.toNat ∧ c.toNat ≤ 57 := by
      simpa [isDigitC] using hc
    have hsp : isSpaceC c = false := by
      simp only [isSpaceC, Bool.or_eq_false_iff, decide_eq_false_iff_not, Bool.and_eq_false_iff]
      omega
    have hminus : c ≠ '-' := by
      intro h; subst h; revert hc2; decide
    have hplus : c ≠ '+' := by
      intro h; subst h; revert hc2; decide
    have htw : List.takeWhile isDigitC (c :: r) = c :: r := by
      rw [List.takeWhile_eq_self_iff]
      exact hd
    unfold stoi
    simp only [List.dropWhile_cons, hsp, Bool.false_eq_true, ↓reduceIte, if_neg hminus,
      if_neg hplus, htw, List.isEmpty_cons]
    rw [if_neg]
    omega

theorem applyOpts_fields (opts : List PackOpt) (c : Settings) :
    (applyOpts opts c).isUnpack = c.isUnpack
      ∧ (applyOpts opts c).useInterFrameCompression
          = (c.useInterFrameCompression || decide (PackOpt.i ∈ opts))
      ∧ (applyOpts opts c).loopAnimation = (c.loopAnimation || decide (PackOpt.l ∈ opts))
      ∧ (applyOpts opts c).delay = lastDelay opts c.delay
      ∧ (applyOpts opts c).unpackFormat = c.unpackFormat
      ∧ (applyOpts opts c).infilePath = c.infilePath
      ∧ (applyOpts opts c).outfilePath = c.outfilePath := by
  induction opts generalizing c with
  | nil => simp [applyOpts, lastDelay]
  | cons o rest ih =>
    cases o with
    | i =>
      obtain ⟨a, b, c1, d, e, f, g⟩ := ih { c with useInterFrameCompression := true }
      simp only [applyOpts, lastDelay]
      refine ⟨a, ?_, ?_, d, e, f, g⟩
      · rw [b]; simp
      · rw [c1]; simp
    | l =>
      obtain ⟨a, b, c1, d, e, f, g⟩ := ih { c with loopAnimation := true }
      simp only [applyOpts, lastDelay]
      refine ⟨a, ?_, ?_, d, e, f, g⟩
      · rw [b]; simp
      · rw [c1]; simp
    | d digits =>
      obtain ⟨a, b, c1, d, e, f, g⟩ := ih { c with delay := decimalValue digits }
      simp only [applyOpts, lastDelay]
      refine ⟨a, ?_, ?_, d, e, f, g⟩
      · rw [b]; simp
      · rw [c1]; simp

theorem get?_after {α : Type} (pre rest : List α) (x : α) :
    (pre ++ x :: rest).get? pre.length = some x := by
  induction pre with
  | nil => rfl
  | cons a pre ih => simpa using ih

theorem get?_after_succ {α : Type} (pre rest : List α) (x y : α) :
    (pre ++ x :: y :: rest).get? (pre.length + 1) = some y := by
  have : pre ++ x :: y :: rest = (pre ++ [x]) ++ y :: rest := by simp
  rw [this]
  have h2 := get?_after (pre ++ [x]) rest y
  simpa using h2

theorem optionLoop_options (opts : List PackOpt) (hv : ∀ o ∈ opts, o.valid)
    (listPath outPath : String) (pre : List String) (fuel next : Nat) (c : Settings)
    (hnext : next + 1 = pre.length) (hfuel : opts.length < fuel) :
    optionLoop (pre ++ optionArgs opts ++ [listPath, outPath]) fuel next c
      = .done false (pre.length + (optionArgs opts).length) (applyOpts opts c) := by
  induction opts generalizing pre fuel next c with
  | nil =>
    cases fuel with
    | zero => simp at hfuel
    | succ fuel =>
      simp only [optionArgs, List.append_nil, optionLoop, List.length_append, List.length_cons,
        List.length_nil, applyOpts, Nat.add_zero]
      rw [if_neg (by push_cast; omega)]
      rw [hnext]
  | cons o rest ih =>
    cases fuel with
    | zero => simp at hfuel
    | succ fuel =>
      have hrest : ∀ o ∈ rest, o.valid := fun o ho => hv o (List.mem_cons_of_mem _ ho)
      have hf : rest.length < fuel := by simp at hfuel; omega
      cases o with
      | i =>
        have e : pre ++ optionArgs (PackOpt.i :: rest) ++ [listPath, outPath]
            = (pre ++ ["-i"]) ++ optionArgs rest ++ [listPath, outPath] := by
          simp [optionArgs, PackOpt.args]
        have hget : (pre ++ optionArgs (PackOpt.i :: rest) ++ [listPath, outPath]).get? (next + 1)
            = some "-i" := by
          rw [hnext]
          have := get?_after pre (optionArgs rest ++ [listPath, outPath]) "-i"
          simpa [optionArgs, PackOpt.args] using this
        unfold optionLoop
        simp only
        rw [if_pos (by
          simp only [optionArgs, PackOpt.args, List.length_append, List.length_cons,
            List.length_nil]
          push_cast; omega)]
        simp only [hget]
        rw [if_neg (by decide), if_pos (by decide)]
        rw [e, ih hrest (pre ++ ["-i"]) fuel (next + 1) _ (by simp; omega) hf]
        simp [optionArgs, PackOpt.args, applyOpts]
        omega
      | l =>
        have e : pre ++ optionArgs (PackOpt.l :: rest) ++ [listPath, outPath]
            = (pre ++ ["-l"]) ++ optionArgs rest ++ [listPath, outPath] := by
          simp [optionArgs, PackOpt.args]
        have hget : (pre ++ optionArgs (PackOpt.l :: rest) ++ [listPath, outPath]).get? (next + 1)
            = some "-l" := by
          rw [hnext]
          have := get?_after pre (optionArgs rest ++ [listPath, outPath]) "-l"
          simpa [optionArgs, PackOpt.args] using this
        unfold optionLoop
        simp only
        rw [if_pos (by
          simp only [optionArgs, PackOpt.args, List.length_append, List.length_cons,
            List.length_nil]
          push_cast; omega)]
        simp only [hget]
        rw [if_neg (by decide), if_neg (by decide), if_neg (by decide), if_pos (by decide)]
        rw [e, ih hrest (pre ++ ["-l"]) fuel (next + 1) _ (by simp; omega) hf]
        simp [optionArgs, PackOpt.args, applyOpts]
        omega
      | d digits =>
        obtain ⟨hne, hdig, hval⟩ := hv (PackOpt.d digits) (List.mem_cons_self _ _)
        have e : pre ++ optionArgs (PackOpt.d digits :: rest) ++ [listPath, outPath]
            = (pre ++ ["-d", String.mk digits]) ++ optionArgs rest ++ [listPath, outPath] := by
          simp [optionArgs, PackOpt.args]
        have hget : (pre ++ optionArgs (PackOpt.d digits :: rest)
            ++ [listPath, outPath]).get? (next + 1) = some "-d" := by
          rw [hnext]
          have := get?_after pre (String.mk digits :: (optionArgs rest ++ [listPath, outPath])) "-d"
          simpa [optionArgs, PackOpt.args] using this
        have hget2 : (pre ++ optionArgs (PackOpt.d digits :: rest)
            ++ [listPath, outPath]).get? (next + 1 + 1) = some (String.mk digits) := by
          rw [hnext]
          have := get?_after_succ pre (optionArgs rest ++ [listPath, outPath]) "-d"
            (String.mk digits)
          simpa [optionArgs, PackOpt.args] using this
        unfold optionLoop
        simp only
        rw [if_pos (by
          simp only [optionArgs, PackOpt.args, List.length_append, List.length_cons,
            List.length_nil]
          push_cast; omega)]
        simp only [hget, hget2]
        rw [if_neg (by decide), if_neg (by decide), if_pos (by decide)]
        simp only [stoi_digits digits hne hdig hval]
        have hun : toUnsigned (decimalValue digits : Int) = decimalValue digits := by
          unfold toUnsigned
          omega
        rw [hun, e,
          ih hrest (pre ++ ["-d", String.mk digits]) fuel (next + 1 + 1) _ (by simp; omega) hf]
        simp [optionArgs, PackOpt.args, applyOpts]
        omega

theorem optionArgs_length (opts : List PackOpt) : opts.length ≤ (optionArgs opts).length := by
  induction opts with
  | nil => simp [optionArgs]
  | cons o rest ih =>
    cases o <;> simp [optionArgs, PackOpt.args] <;> omega

/-- C10 as the code has it.  Pack: for a non-empty sequence of options `-i`,
`-l`, `-d <microseconds>`, each `<microseconds>` a non-empty string of decimal
digits with value at most 2147483647, followed by the list path and the output
path, command line processing reports no error and yields the pack operation
with inter-frame compression on iff `-i` occurs, looping on iff `-l` occurs, the
frame duration of the last `-d` (0 without one), the list path and the output
path.  Unpack: `unpack <format> <input> <output-dir>` with `<format>` one of
`png`, `qoi`, `qoi2` is accepted as an unpack. -/
theorem processArgs_command_surface (prog : String) :
    (∀ (opts : List PackOpt) (listPath outPath : String), opts ≠ [] → (∀ o ∈ opts, o.valid) →
        processArgs ([prog, "pack"] ++ optionArgs opts ++ [listPath, outPath])
          = .run { isUnpack := false
                   useInterFrameCompression := decide (PackOpt.i ∈ opts)
                   loopAnimation := decide (PackOpt.l ∈ opts)
                   delay := lastDelay opts 0
                   unpackFormat := ""
                   infilePath := listPath
                   outfilePath := outPath })
    ∧ (∀ (format input outDir : String), format = "png" ∨ format = "qoi" ∨ format = "qoi2" →
        processArgs [prog, "unpack", format, input, outDir]
          = .run { isUnpack := true
                   useInterFrameCompression := false
                   loopAnimation := false
                   delay := 0
                   unpackFormat := "." ++ format
                   infilePath := input
                   outfilePath := outDir }) := by
  constructor
  · intro opts listPath outPath hne hv
    have hlen := optionArgs_length opts
    have hpos : 0 < opts.length := List.length_pos.mpr hne
    have hloop := optionLoop_options opts hv listPath outPath [prog, "pack"]
      ([prog, "pack"] ++ optionArgs opts ++ [listPath, outPath]).length 1
      { Settings.defaults with isUnpack := false } rfl (by simp; omega)
    have hg1 : ([prog, "pack"] ++ optionArgs opts ++ [listPath, outPath]).get?
        ([prog, "pack"].length + (optionArgs opts).length) = some listPath := by
      have e : [prog, "pack"] ++ optionArgs opts ++ [listPath, outPath]
          = ([prog, "pack"] ++ optionArgs opts) ++ listPath :: [outPath] := rfl
      rw [e, ← List.length_append]
      exact get?_after _ _ _
    have hg2 : ([prog, "pack"] ++ optionArgs opts ++ [listPath, outPath]).get?
        ([prog, "pack"].length + (optionArgs opts).length + 1) = some outPath := by
      have e : [prog, "pack"] ++ optionArgs opts ++ [listPath, outPath]
          = ([prog, "pack"] ++ optionArgs opts) ++ listPath :: outPath :: [] := rfl
      rw [e, ← List.length_append]
      exact get?_after_succ _ _ _ _
    obtain ⟨a, b, c, d, e, f, g⟩ :=
      applyOpts_fields opts { Settings.defaults with isUnpack := false }
    have hget1 : ([prog, "pack"] ++ optionArgs opts ++ [listPath, outPath]).getD 1 "" = "pack" := by
      simp
    unfold processArgs
    simp only [hget1]
    rw [if_neg (by
      intro hx
      exact absurd hx.2 (by decide))]
    rw [if_pos (by
      refine ⟨?_, by decide⟩
      simp only [List.length_append, List.length_cons, List.length_nil]
      push_cast
      omega)]
    rw [hloop]
    simp only [hg1, hg2]
    simp only [Bool.false_eq_true, ↓reduceIte, ArgsOutcome.run.injEq]
    have hs : ∀ x y : Settings, x.isUnpack = y.isUnpack →
        x.useInterFrameCompression = y.useInterFrameCompression →
        x.loopAnimation = y.loopAnimation → x.delay = y.delay →
        x.unpackFormat = y.unpackFormat → x.infilePath = y.infilePath →
        x.outfilePath = y.outfilePath → x = y := by
      intro x y h1 h2 h3 h4 h5 h6 h7
      cases x; cases y
      simp only at h1 h2 h3 h4 h5 h6 h7
      subst h1 h2 h3 h4 h5 h6 h7
      rfl
    apply hs
    · simp only; rw [a]
    · simp only; rw [b]; simp [Settings.defaults]
    · simp only; rw [c]; simp [Settings.defaults]
    · simp only; rw [d]; rfl
    · simp only; rw [e]; rfl
    · rfl
    · rfl
  · intro format input outDir hf
    rcases hf with rfl | rfl | rfl <;>
      simp [processArgs, stricmpEq, Settings.defaults]

/-- Counterexample to C10 as stated: with the empty sequence of options the
argument vector `pack list.txt out.qon` is answered with the usage text, and a
decimal integer that is not an `int` after `-d` ends the program in
`std::stoi`. -/
theorem processArgs_counterexample :
    processArgs (["qonconv", "pack"] ++ optionArgs [] ++ ["list.txt", "out.qon"]) = .usage
      ∧ processArgs (["qonconv", "pack"]
          ++ optionArgs [.d ['2', '1', '4', '7', '4', '8', '3', '6', '4', '8']]
          ++ ["list.txt", "out.qon"]) = .aborted := by
  constructor <;> decide

/-- Witness for the corrected C10: the command line of the usage example. -/
theorem processArgs_command_surface_witness :
    processArgs ["qonconv", "pack", "-i", "-d", "100000", "InputFileList.txt", "output.qon"]
        = .run { isUnpack := false, useInterFrameCompression := true, loopAnimation := false,
                 delay := 100000, unpackFormat := "", infilePath := "InputFileList.txt",
                 outfilePath := "output.qon" }
      ∧ processArgs ["qonconv", "unpack", "png", "input.qon", "outdir"]
        = .run { isUnpack := true, useInterFrameCompression := false, loopAnimation := false,
                 delay := 0, unpackFormat := ".png", infilePath := "input.qon",
                 outfilePath := "outdir" } := by
  have h := processArgs_command_surface "qonconv"
  refine ⟨?_, h.2 "png" "input.qon" "outdir" (Or.inl rfl)⟩
  have h1 := h.1 [.i, .d ['1', '0', '0', '0', '0', '0']] "InputFileList.txt" "output.qon"
    (by simp) (by
      intro o ho
      simp only [List.mem_cons, List.mem_singleton, List.not_mem_nil, or_false] at ho
      rcases ho with rfl | rfl
      · trivial
      · refine ⟨by simp, by decide, by decide⟩)
  simpa [optionArgs, PackOpt.args, lastDelay, decimalValue] using h1

/-! ### Round trip (C1) -/

theorem prevOf_succ (images : List Image) (i : Nat) (img : Image) (h : images[i]? = some img) :
    prevOf images (i + 1) = some img.pixels := by
  simp [prevOf, h]

/-- The unpack loop over a file whose records, index entries and payloads are
those of the frames `ws` emits the rasters of `images`. -/
theorem unpackLoop_roundtrip (env : Env) (unpackFormat infilePath outfilePath : String)
    (qonHeader : qon_desc) (qoi2Header : qoi2_desc) (frameIndexBuffer : List Byte)
    (base : Nat) (stackJunk : Nat → List Byte) (data : List Byte) (images : List Image)
    (ws : List FrameWrite)
    (hidx : ∀ (i : Nat) (w : FrameWrite), ws[i]? = some w →
      env.fmt.qon_decode_index_entry frameIndexBuffer i = (w.offset, w.flags))
    (hpos : ∀ (i : Nat) (w : FrameWrite), ws[i]? = some w →
      (data.drop (base + w.offset)).take (env.fmt.QON_FRAME_SIZE_SIZE + w.payload.length)
        = env.fmt.qon_encode_frame_size w.payload.length ++ w.payload)
    (hsize : ∀ n, (env.fmt.qon_encode_frame_size n).length = env.fmt.QON_FRAME_SIZE_SIZE)
    (hfs : ∀ (i : Nat) (w : FrameWrite), ws[i]? = some w →
      env.fmt.qon_decode_frame_size (env.fmt.qon_encode_frame_size w.payload.length)
        = w.payload.length)
    (hdec : ∀ (i : Nat) (w : FrameWrite), ws[i]? = some w →
      ∃ img, images[i]? = some img
        ∧ env.codec.qoi2_decode_data w.payload qoi2Header
            (previousFrameReferenceData qonHeader.flags w.flags i (prevOf images i))
            qoi2Header.channels = some img.pixels)
    (hemit : ∀ path pixels, emitFrame env.libs unpackFormat path qonHeader pixels = true)
    (hlen : ws.length = images.length)
    (n i : Nat) (s : UnpackState) (hin : i + n = ws.length) (hdata : s.infile.data = data)
    (hfail : s.infile.fail = false) (hlast : s.lastFramePixels = prevOf images i)
    (hem : s.emitted.map (fun e => e.2) = (images.take i).map (fun img => img.pixels)) :
    (unpackLoop env unpackFormat infilePath outfilePath qonHeader qoi2Header frameIndexBuffer
        base stackJunk n i s).2 = none
    ∧ (unpackLoop env unpackFormat infilePath outfilePath qonHeader qoi2Header frameIndexBuffer
        base stackJunk n i s).1.emitted.map (fun e => e.2)
        = images.map (fun img => img.pixels) := by
  induction n generalizing i s with
  | zero =>
    simp only [unpackLoop, true_and]
    rw [hem, List.take_of_length_le (by omega)]
  | succ n ih =>
    have hi : i < ws.length := by omega
    have hw : ws[i]? = some ws[i] := List.getElem?_eq_getElem hi
    obtain ⟨img, himg, hdecode⟩ := hdec i ws[i] hw
    have hp := hpos i ws[i] hw
    have hszl := hsize ws[i].payload.length
    -- the size field
    have hr1 : ((s.infile.seekg (base + (ws[i]).offset)).data.drop
          (s.infile.seekg (base + (ws[i]).offset)).pos).take env.fmt.QON_FRAME_SIZE_SIZE
        = env.fmt.qon_encode_frame_size (ws[i]).payload.length := by
      simp only [ifstream.seekg, hfail, Bool.false_eq_true, ↓reduceIte, hdata]
      have := congrArg (List.take env.fmt.QON_FRAME_SIZE_SIZE) hp
      rw [List.take_take, Nat.min_eq_left (by omega)] at this
      rw [this, List.take_append_of_le_length (by omega), List.take_of_length_le (by omega)]
    have hread1 := ifstream.read_ok (s.infile.seekg (base + (ws[i]).offset))
      env.fmt.QON_FRAME_SIZE_SIZE (stackJunk i) _
      (by simp [ifstream.seekg, hfail]) hr1 hszl
    -- the payload
    have hr2 : (data.drop (base + (ws[i]).offset + env.fmt.QON_FRAME_SIZE_SIZE)).take
          (ws[i]).payload.length = (ws[i]).payload := by
      have := congrArg (List.drop env.fmt.QON_FRAME_SIZE_SIZE) hp
      rw [List.drop_take, List.drop_drop] at this
      rw [show env.fmt.QON_FRAME_SIZE_SIZE + (ws[i]).payload.length - env.fmt.QON_FRAME_SIZE_SIZE
            = (ws[i]).payload.length by omega] at this
      rw [this, List.drop_append_of_le_length (by omega), List.drop_of_length_le (by omega)]
      simp
    obtain ⟨s2, hstep, hs2d, hs2f, hs2l, hs2e⟩ : ∃ s2, unpackFrame env unpackFormat infilePath
        outfilePath qonHeader qoi2Header frameIndexBuffer base (stackJunk i) s i = .ok s2
        ∧ s2.infile.data = data ∧ s2.infile.fail = false
        ∧ s2.lastFramePixels = some img.pixels
        ∧ s2.emitted
            = s.emitted ++ [(outfilePath ++ frameFileName i ++ unpackFormat, img.pixels)] := by
      unfold unpackFrame
      simp only [hidx i ws[i] hw, hread1, hfs i ws[i] hw]
      have hread2 := ifstream.read_ok
        ({ s.infile.seekg (base + (ws[i]).offset) with
            pos := (s.infile.seekg (base + (ws[i]).offset)).pos + env.fmt.QON_FRAME_SIZE_SIZE })
        (ws[i]).payload.length (List.replicate (ws[i]).payload.length 0) (ws[i]).payload
        (by simp [ifstream.seekg, hfail])
        (by simpa [ifstream.seekg, hfail, hdata] using hr2) rfl
      simp only [hread2, hlast, hdecode, hemit, if_true]
      exact ⟨_, rfl, by simp [ifstream.seekg, hfail, hdata], by simp [ifstream.seekg, hfail],
        rfl, rfl⟩
    have e : unpackLoop env unpackFormat infilePath outfilePath qonHeader qoi2Header
        frameIndexBuffer base stackJunk (n + 1) i s
        = unpackLoop env unpackFormat infilePath outfilePath qonHeader qoi2Header
            frameIndexBuffer base stackJunk n (i + 1) s2 := by
      simp only [unpackLoop, hstep]
    rw [e]
    apply ih (i + 1) s2 (by omega) hs2d hs2f
    · rw [hs2l, prevOf_succ images i img himg]
    · rw [hs2e]
      simp only [List.map_append, List.map_cons, List.map_nil, hem]
      rw [List.take_succ, himg]
      simp

theorem indexImage_decode (fmt : QonFormat) (limit : Nat) (hok : IndexOK fmt limit)
    (hkeep : ∀ buf i off fl, (fmt.qon_encode_index_entry buf i off fl).length = buf.length)
    (ws : List FrameWrite) (k : Nat) (buf : List Byte)
    (hroom : (k + ws.length) * fmt.QON_INDEX_SIZE_PER_ENTRY ≤ buf.length)
    (hfit : ∀ w ∈ ws, w.offset < limit ∧ w.flags ≤ 1) :
    (∀ j, j < k →
        fmt.qon_decode_index_entry (indexImage fmt buf k ws) j = fmt.qon_decode_index_entry buf j)
    ∧ (∀ (i : Nat) (w : FrameWrite), ws[i]? = some w →
        fmt.qon_decode_index_entry (indexImage fmt buf k ws) (k + i) = (w.offset, w.flags)) := by
  induction ws generalizing k buf with
  | nil => simp [indexImage]
  | cons a ws ih =>
    obtain ⟨ha1, ha2⟩ := hfit a (List.mem_cons_self _ _)
    have hslot : (k + 1) * fmt.QON_INDEX_SIZE_PER_ENTRY ≤ buf.length := by
      refine Nat.le_trans (Nat.mul_le_mul_right _ ?_) hroom
      simp
    obtain ⟨hself, hothers⟩ := hok buf k a.offset a.flags hslot ha1 ha2
    have hroom2 : (k + 1 + ws.length) * fmt.QON_INDEX_SIZE_PER_ENTRY
        ≤ (fmt.qon_encode_index_entry buf k a.offset a.flags).length := by
      rw [hkeep]
      refine Nat.le_trans (Nat.le_of_eq ?_) hroom
      simp only [List.length_cons]
      congr 1
      omega
    obtain ⟨ih1, ih2⟩ := ih (k + 1) (fmt.qon_encode_index_entry buf k a.offset a.flags) hroom2
      (fun w hw => hfit w (List.mem_cons_of_mem _ hw))
    simp only [indexImage]
    constructor
    · intro j hj
      rw [ih1 j (by omega), hothers j (by omega)]
    · intro i w hiw
      cases i with
      | zero =>
        simp only [List.getElem?_cons_zero, Option.some.injEq] at hiw
        subst hiw
        have e := ih1 k (by omega)
        rw [hself] at e
        exact e
      | succ i =>
        simp only [List.getElem?_cons_succ] at hiw
        have := ih2 i w hiw
        rw [show k + (i + 1) = k + 1 + i by omega]
        exact this

theorem finalHeader_fields {fmt : QonFormat} {opt : PackOptions} {n : Nat} {s : PackState}
    (hinv : PackInv fmt opt n s) :
    ((finalHeader opt s).flags &&& QON_FLAGS_USES_INTERFRAME_COMPRESSION ≠ 0
        ↔ ∃ w ∈ s.written, w.flags ≠ 0)
    ∧ (finalHeader opt s).geometry = s.qonHeader.geometry
    ∧ (finalHeader opt s).frame_count = n := by
  have huse : s.addedInterFrameCompressedData = true → opt.useInterFrameCompression = true := by
    intro ha
    obtain ⟨w, hm, hne⟩ := hinv.added.1 ha
    obtain ⟨i, hi⟩ := List.getElem?_of_mem hm
    rcases hinv.flags i w hi with h0 | ⟨-, -, hu⟩
    · exact absurd h0 hne
    · exact hu
  refine ⟨?_, ?_, ?_⟩
  · rw [← hinv.added]
    unfold finalHeader
    by_cases ha : s.addedInterFrameCompressedData = true
    · rw [if_pos ha]
      simp only [huse ha, if_true, hinv.headerFlags, ha]
      cases opt.loopAnimation <;> decide
    · rw [if_neg ha, hinv.headerFlags]
      simp only [ha]
      cases opt.loopAnimation <;> decide
  · unfold finalHeader
    split <;> rfl
  · unfold finalHeader
    split <;> exact hinv.count

theorem packLoop_encInv (env : Env) (opt : PackOptions) (g : Nat × Nat × Nat × Nat)
    (images : List Image) (hgeo : ∀ img ∈ images, img.geometry = g) (todo : List String)
    (s t : PackState) (hs : EncInv env.codec g images s)
    (hload : ∀ (j : Nat) (p : String), todo[j]? = some p →
      ∃ img, images[s.written.length + j]? = some img ∧ loadImage env p = .loaded img)
    (hloop : packLoop env opt s todo = (t, none)) : EncInv env.codec g images t := by
  induction todo generalizing s with
  | nil =>
    simp only [packLoop, Prod.mk.injEq, and_true] at hloop
    subst hloop
    exact hs
  | cons p rest ih =>
    unfold packLoop at hloop
    split at hloop
    · cases hloop
    · rename_i s2 hok
      obtain ⟨img, himg, hld⟩ := hload 0 p (by simp)
      rw [Nat.add_zero] at himg
      have hg : img.geometry = g := hgeo img (List.getElem?_mem himg)
      obtain ⟨img2, s1, keyFrame, payload, flags, hload2, hlatch, hkey, -, -, hw, -, hno, hlast,
        -, -, -, -, hsel⟩ := packFrame_step hok
      rw [hld] at hload2
      cases hload2
      obtain ⟨-, hq2, hmax⟩ := latchOrValidate_latched hg hs.latched hlatch
      rw [hq2, hmax] at hkey
      have hs2 : EncInv env.codec g images s2 := by
        constructor
        · rw [hno, hw, hs.frameNo]; simp
        · exact packFrame_latched hld hg hs.latched hok
        · rw [hlast, hw]
          simp only [List.length_append, List.length_cons, List.length_nil, Nat.zero_add]
          rw [prevOf_succ images _ img himg]
        · intro i w hiw
          rw [hw] at hiw
          rcases getElem?_snoc _ _ _ _ hiw with ⟨-, hiw2⟩ | ⟨hi, rfl⟩
          · exact hs.frames i w hiw2
          · refine ⟨img, by rw [hi]; exact himg, ?_⟩
            rcases hsel with ⟨-, hpos, ⟨interFrame, hin, -, hp⟩, hf⟩ | ⟨-, hp, hf⟩
            · right
              refine ⟨hf, by rw [hi, ← hs.frameNo]; exact hpos, ?_⟩
              rw [hq2, hmax, hs.last] at hin
              simp only
              rw [hi, hp]
              exact hin
            · left
              refine ⟨hf, ?_⟩
              simp only
              rw [hp]
              exact hkey
      apply ih s2 hs2 _ hloop
      intro j q hjq
      obtain ⟨img3, h3, h4⟩ := hload (j + 1) q (by simpa using hjq)
      refine ⟨img3, ?_, h4⟩
      rw [hw]
      simp only [List.length_append, List.length_cons, List.length_nil, Nat.zero_add]
      rw [show s.written.length + 1 + j = s.written.length + (j + 1) by omega]
      exact h3

theorem loads_at (env : Env) (paths : List String) (images : List Image)
    (hload : paths.map (loadImage env) = images.map LoadResult.loaded) (j : Nat) (p : String)
    (hp : paths[j]? = some p) :
    ∃ img, images[j]? = some img ∧ loadImage env p = .loaded img := by
  have h := congrArg (fun l => l[j]?) hload
  simp only [List.getElem?_map, hp, Option.map_some'] at h
  cases himg : images[j]? with
  | none => rw [himg] at h; cases h
  | some img =>
    rw [himg] at h
    simp only [Option.map_some', Option.some.injEq] at h
    exact ⟨img, rfl, h⟩

/-- C1, round trip of pack then unpack.  For a non-empty list of source paths
that load as `images`, all of one geometry, and either value of the inter-frame
option: if the pixel codec decodes, with the same reference (absent or the
raster of another frame), every block it encodes for these rasters back to the
raster; the header decodes from what it was encoded to, index entries decode to
the offset and flags stored, and frame sizes decode to the size encoded, for
values below `limit`; the encoders fill their fixed-size buffers; pack succeeds
with a frame-data region smaller than `limit`; and the output encoder succeeds;
then unpacking the file pack wrote ends with exit status 0 and no error and
emits one raster for each source frame, the i-th equal to the pixels of the
i-th source image. -/
theorem pack_unpack_roundtrip (env : Env) (opt : PackOptions) (junk : qon_desc)
    (junk2 : qoi2_desc) (outfilePath : String) (paths : List String) (images : List Image)
    (g : Nat × Nat × Nat × Nat) (limit : Nat) (unpackFormat infilePath outDir : String)
    (stackJunk : Nat → List Byte) (r : PackResult)
    (hr : pack env opt junk junk2 outfilePath paths = r)
    (hne : paths ≠ [])
    (hload : paths.map (loadImage env) = images.map LoadResult.loaded)
    (hgeo : ∀ img ∈ images, img.geometry = g)
    (hcodec : ∀ img ∈ images, ∀ reference bs,
      (reference = none ∨ ∃ prev ∈ images, reference = some prev.pixels) →
      env.codec.qoi2_encode_data img.pixels img.channels (descOf g) reference
          (env.codec.qoi2_max_encoded_data_size_without_header (descOf g)) = some bs →
      env.codec.qoi2_decode_data bs (descOf g) reference (descOf g).channels = some img.pixels)
    (hsz : SizesOK env.fmt) (hidx : IndexOK env.fmt limit)
    (hfs : ∀ n, n < limit →
      env.fmt.qon_decode_frame_size (env.fmt.qon_encode_frame_size n) = n)
    (hhdr : ∀ bs, env.fmt.qon_encode_header r.state.qonHeader = some bs →
      env.fmt.qon_decode_header bs = some r.state.qonHeader)
    (hok : r.exitStatus = 0)
    (hfit : r.state.currentFileOffsetAfterHeader < limit)
    (hemit : ∀ path pixels, emitFrame env.libs unpackFormat path r.state.qonHeader pixels = true) :
    (unpack env unpackFormat infilePath outDir stackJunk r.state.outfile.data).exitStatus = 0
    ∧ (unpack env unpackFormat infilePath outDir stackJunk r.state.outfile.data).error = none
    ∧ (unpack env unpackFormat infilePath outDir stackJunk r.state.outfile.data).emitted.map
          (fun e => e.2)
        = images.map (fun img => img.pixels) := by
  subst hr
  obtain ⟨s, hb0, hloop, hbs0, hres⟩ := pack_success hok
  have hinv := packLoop_inv env opt junk junk2 paths.length paths
  rw [hloop] at hinv
  simp only at hinv
  obtain ⟨hb, hbs, hbl, hil, hwl, hdata⟩ := pack_file hsz hok
  have hposn := pack_record_at env opt junk junk2 outfilePath paths hsz hok
  have hdecHdr := hhdr hb hbs
  -- the fields of the final state in terms of the loop state
  have hq : (pack env opt junk junk2 outfilePath paths).state.qonHeader = finalHeader opt s := by
    rw [hres]
  have hw : (pack env opt junk junk2 outfilePath paths).state.written = s.written := by
    rw [hres]
  have hib : (pack env opt junk junk2 outfilePath paths).state.frameIndexBuffer
      = s.frameIndexBuffer := by
    rw [hres]
  have hco : (pack env opt junk junk2 outfilePath paths).state.currentFileOffsetAfterHeader
      = s.currentFileOffsetAfterHeader := by
    rw [hres]
  rw [hw] at hwl hposn hdata
  rw [hib] at hil hdata
  rw [hco] at hfit
  rw [hq] at hdecHdr hemit
  generalize (pack env opt junk junk2 outfilePath paths).state.outfile.data = data at *
  obtain ⟨hfl, hgm, hfc⟩ := finalHeader_fields hinv
  -- the frames written are the encodings of the images
  have hilen : images.length = paths.length := by
    have := congrArg List.length hload
    simpa using this.symm
  have henc : EncInv env.codec g images s := by
    refine packLoop_encInv env opt g images hgeo paths _ s ?_ ?_ hloop
    · exact ⟨rfl, Or.inl rfl, by simp [packInit, prevOf], by simp [packInit]⟩
    · intro j p hp
      simpa [packInit] using loads_at env paths images hload j p hp
  have hNpos : 0 < paths.length := List.length_pos.mpr hne
  have hgeoS : s.qonHeader.geometry = g := by
    rcases henc.latched with h0 | ⟨h1, -⟩
    · rw [henc.frameNo, hwl] at h0; omega
    · exact h1
  have hdesc : (⟨(finalHeader opt s).width, (finalHeader opt s).height,
        (finalHeader opt s).channels, (finalHeader opt s).colorspace⟩ : qoi2_desc)
      = descOf g := by
    rw [← hgeoS, ← hgm]
    rfl
  -- sizes fit
  have hsplit : ∀ (i : Nat) (w : FrameWrite), s.written[i]? = some w →
      w.offset + env.fmt.QON_FRAME_SIZE_SIZE + w.payload.length < limit := by
    intro i w hiw
    have e := split_at_frame s.written i w hiw
    have h1 := hinv.offsets i w hiw
    have h2 : dataSize env.fmt s.written
        = dataSize env.fmt (s.written.take i) + (recordSize env.fmt w
            + dataSize env.fmt (s.written.drop (i + 1))) := by
      conv_lhs => rw [e]
      rw [dataSize_app]
      simp only [dataSize]
    rw [hinv.offset, h2, ← h1] at hfit
    simp only [recordSize] at hfit
    omega
  have hflags : ∀ (i : Nat) (w : FrameWrite), s.written[i]? = some w →
      w.flags = 0 ∨ w.flags = QON_FRAME_FLAGS_INTERFRAME_COMPRESSION := by
    intro i w hiw
    rcases hinv.flags i w hiw with h0 | ⟨h1, -⟩
    · exact Or.inl h0
    · exact Or.inr h1
  -- what the index decodes to
  have hidxdec := (indexImage_decode env.fmt limit hidx hsz.2.2.1 s.written 0
    (List.replicate (paths.length * env.fmt.QON_INDEX_SIZE_PER_ENTRY) 0)
    (by simp [hwl])
    (by
      intro w hmem
      obtain ⟨i, hi⟩ := List.getElem?_of_mem hmem
      refine ⟨by have := hsplit i w hi; omega, ?_⟩
      rcases hflags i w hi with h | h <;> rw [h] <;> decide)).2
  rw [← hinv.index] at hidxdec
  simp only [Nat.zero_add] at hidxdec
  -- run unpack
  have hread0 : (ifstream.opened (hb ++ s.frameIndexBuffer ++ dataBytes env.fmt s.written)).read
      env.fmt.QON_BARE_HEADER_SIZE (List.replicate env.fmt.QON_BARE_HEADER_SIZE 0)
      = (hb, { data := hb ++ s.frameIndexBuffer ++ dataBytes env.fmt s.written,
               pos := env.fmt.QON_BARE_HEADER_SIZE, fail := false }) := by
    rw [ifstream.read_ok _ _ _ hb rfl (by simp [ifstream.opened, ← hbl]) hbl]
    simp [ifstream.opened]
  have hread1 : (ifstream.mk (hb ++ s.frameIndexBuffer ++ dataBytes env.fmt s.written)
      env.fmt.QON_BARE_HEADER_SIZE false).read
      (env.fmt.QON_INDEX_SIZE_PER_ENTRY * (finalHeader opt s).frame_count)
      (List.replicate (env.fmt.QON_INDEX_SIZE_PER_ENTRY * (finalHeader opt s).frame_count) 0)
      = (s.frameIndexBuffer,
          { data := hb ++ s.frameIndexBuffer ++ dataBytes env.fmt s.written,
            pos := env.fmt.QON_BARE_HEADER_SIZE + s.frameIndexBuffer.length, fail := false }) := by
    have hn : env.fmt.QON_INDEX_SIZE_PER_ENTRY * (finalHeader opt s).frame_count
        = s.frameIndexBuffer.length := by
      rw [hfc, hil, Nat.mul_comm]
    rw [hn]
    rw [ifstream.read_ok _ _ _ s.frameIndexBuffer rfl
      (by simp [← hbl]) rfl]
  subst hdata
  have hloopU := unpackLoop_roundtrip env unpackFormat infilePath outDir (finalHeader opt s)
    (descOf g) s.frameIndexBuffer (hb.length + s.frameIndexBuffer.length) stackJunk
    (hb ++ s.frameIndexBuffer ++ dataBytes env.fmt s.written) images s.written
    hidxdec
    (by
      intro i w hiw
      have := hposn i w hiw
      rw [hbl, hil]
      exact this)
    hsz.2.1
    (by
      intro i w hiw
      exact hfs _ (by have := hsplit i w hiw; omega))
    (by
      intro i w hiw
      obtain ⟨img, himg, hfe⟩ := henc.frames i w hiw
      refine ⟨img, himg, ?_⟩
      have hmem : img ∈ images := List.getElem?_mem himg
      rcases hfe with ⟨hf, he⟩ | ⟨hf, hi, he⟩
      · have href : previousFrameReferenceData (finalHeader opt s).flags w.flags i
            (prevOf images i) = none := by
          unfold previousFrameReferenceData
          rw [hf]
          simp
        rw [href]
        exact hcodec img hmem none _ (Or.inl rfl) he
      · have href : previousFrameReferenceData (finalHeader opt s).flags w.flags i
            (prevOf images i) = prevOf images i := by
          unfold previousFrameReferenceData
          rw [if_pos]
          simp only [Bool.and_eq_true, decide_eq_true_eq]
          refine ⟨⟨hfl.2 ⟨w, List.getElem?_mem hiw, by rw [hf]; decide⟩, by rw [hf]; decide⟩, hi⟩
        rw [href]
        refine hcodec img hmem _ _ (Or.inr ?_) he
        have hlt : i - 1 < images.length := by
          have := (List.getElem?_eq_some.1 himg).1
          omega
        refine ⟨images[i - 1], List.getElem_mem _, ?_⟩
        simp only [prevOf]
        rw [if_neg (by omega), List.getElem?_eq_getElem hlt]
        rfl)
    hemit (by rw [hwl, hilen]) (finalHeader opt s).frame_count 0
    { infile := { data := hb ++ s.frameIndexBuffer ++ dataBytes env.fmt s.written,
                  pos := env.fmt.QON_BARE_HEADER_SIZE + s.frameIndexBuffer.length,
                  fail := false },
      lastFramePixels := none, emitted := [] }
    (by rw [hfc, hwl]; simp) rfl rfl (by simp [prevOf]) (by simp)
  unfold unpack
  simp only [hread0, hdecHdr, hread1, hdesc]
  generalize unpackLoop env unpackFormat infilePath outDir (finalHeader opt s) (descOf g)
    s.frameIndexBuffer (hb.length + s.frameIndexBuffer.length) stackJunk
    (finalHeader opt s).frame_count 0
    { infile := { data := hb ++ s.frameIndexBuffer ++ dataBytes env.fmt s.written,
                  pos := env.fmt.QON_BARE_HEADER_SIZE + s.frameIndexBuffer.length,
                  fail := false },
      lastFramePixels := none, emitted := [] } = res at hloopU ⊢
  obtain ⟨st, e⟩ := res
  simp only at hloopU
  obtain ⟨he, hem⟩ := hloopU
  subst he
  exact ⟨rfl, rfl, hem⟩

theorem demoFormat_index : IndexOK demoFormat 65536 := by
  intro buf i off fl hroom hoff hfl
  have hroom2 : 3 * i + 3 ≤ buf.length := by
    simp only [demoFormat] at hroom
    omega
  have h0 : 3 * i < buf.length := by omega
  have h1 : 3 * i + 1 < buf.length := by omega
  have h2 : 3 * i + 2 < buf.length := by omega
  constructor
  · simp only [demoFormat, List.getD_eq_getElem?_getD, List.getElem?_set, List.length_set]
    simp only [h0, h1, h2, if_true, Option.getD_some, Prod.mk.injEq]
    have e1 : ¬ (3 * i + 2 = 3 * i + 1) := by omega
    have e2 : ¬ (3 * i + 2 = 3 * i) := by omega
    have e3 : ¬ (3 * i + 1 = 3 * i) := by omega
    have e4 : ¬ (3 * i + 1 = 3 * i + 2) := by omega
    have e5 : ¬ (3 * i = 3 * i + 1) := by omega
    have e6 : ¬ (3 * i = 3 * i + 2) := by omega
    simp only [e1, e2, e3, e4, e5, e6, if_false, if_true, Option.getD_some]
    constructor <;> omega
  · intro j hj
    simp only [demoFormat, List.getD_eq_getElem?_getD, List.getElem?_set, List.length_set]
    have a1 : ¬ (3 * i + 2 = 3 * j) := by omega
    have a2 : ¬ (3 * i + 1 = 3 * j) := by omega
    have a3 : ¬ (3 * i = 3 * j) := by omega
    have a4 : ¬ (3 * i + 2 = 3 * j + 1) := by omega
    have a5 : ¬ (3 * i + 1 = 3 * j + 1) := by omega
    have a6 : ¬ (3 * i = 3 * j + 1) := by omega
    have a7 : ¬ (3 * i + 2 = 3 * j + 2) := by omega
    have a8 : ¬ (3 * i + 1 = 3 * j + 2) := by omega
    have a9 : ¬ (3 * i = 3 * j + 2) := by omega
    simp only [a1, a2, a3, a4, a5, a6, a7, a8, a9, if_false]

theorem demoCodec_lossless (pixels : List Byte) (channels : Nat) (desc : qoi2_desc)
    (reference : Option (List Byte)) (capacity : Nat) (bs : List Byte)
    (h : demoCodec.qoi2_encode_data pixels channels desc reference capacity = some bs) :
    demoCodec.qoi2_decode_data bs desc reference desc.channels = some pixels := by
  simp only [demoCodec] at h ⊢
  split at h
  · rename_i href
    split at h
    · cases h
      simp [href]
    · cases h
  · split at h
    · cases h
      simp
    · cases h

/-- Witness for C1: the concrete run, packed with inter-frame compression and
unpacked again, gives back the three source rasters. -/
theorem pack_unpack_roundtrip_witness :
    demoPack.exitStatus = 0
      ∧ (unpack demoEnv ".qoi" "in.qon" "out/" demoStackJunk
          demoPack.state.outfile.data).emitted.map (fun e => e.2)
        = [[255, 0, 0], [255, 0, 0], [0, 0, 255]] := by
  refine ⟨by decide, ?_⟩
  have h := pack_unpack_roundtrip demoEnv demoOptions demoJunk demoJunk2 "out.qon" demoPaths
    demoImages (1, 1, 3, 0) 65536 ".qoi" "in.qon" "out/" demoStackJunk demoPack rfl
    (by decide) (by decide) (by decide)
    (fun img _ reference bs _ henc => demoCodec_lossless _ _ _ _ _ _ henc)
    demoFormat_sizes demoFormat_index
    (by
      intro n hn
      simp only [demoEnv, demoFormat, List.getD_cons_zero, List.getD_cons_succ]
      omega)
    (by
      intro bs hbs
      have e : demoEnv.fmt.qon_encode_header demoPack.state.qonHeader
          = some [1, 1, 3, 0, 3, 3, 5] := by decide
      rw [e] at hbs
      cases hbs
      decide)
    (by decide) (by decide)
    (by
      intro path pixels
      have e : STR_ENDS_WITH ".qoi" ".png" = false := by decide
      have e2 : STR_ENDS_WITH ".qoi" ".qoi" = true := by decide
      simp [emitFrame, e, e2, demoEnv, demoLibs])
  exact h.2.2

end Qon
